import Mathlib

/-!
# Ultimate Tic-Tac-Toe engine (`game/game.go`, `game/ui.go`)

A shallow embedding of the game-state engine of the `u3t` repository and the
properties of it that its specification states.

Conventions of the embedding

* Go `int` is a 64-bit signed integer: it is modelled by `Int`, and every `+` and
  `*` of the source is followed by `wrapInt` (two's complement wrap-around).
  `/` and `%` of Go truncate toward zero: `Int.tdiv` and `Int.tmod`.
* Go `uint64` and `uint16` are modelled by `Nat`; `&` and `|` cannot overflow.
* `uint64(1) << n` with a signed count `n` panics at run time when `n < 0` and
  loses every bit shifted beyond bit 63. A panic is the value `none`.
* A method with receiver `g *u3t` that mutates `g` returns the new state next to
  its result.
-/

set_option maxRecDepth 100000

namespace U3T

/-! ## Machine arithmetic -/

/-- Two's complement wrap-around of a Go `int` (64 bits). -/
def wrapInt (x : Int) : Int := (x + 2 ^ 63) % 2 ^ 64 - 2 ^ 63

/-- The Go expression `uint64(1) << n` for a signed shift count `n`: a run-time
panic (`none`) for a negative count, `0` once the bit leaves the 64-bit word. -/
def shl1 (n : Int) : Option Nat :=
  if n < 0 then none
  else if 64 ≤ n then some 0
  else some (2 ^ n.toNat)

/-! ## The state (`game.go`, lines 7-26) -/

/-- The struct `u3t` of `game.go`. -/
structure u3t where
  XBoard : Nat
  OBoard : Nat
  ActiveBoard : Int
  XTurn : Bool
  deriving DecidableEq, Repr

/-- The constant `EmptyBoard`. -/
def EmptyBoard : Nat := 0

/-- The constant `AllCells`. -/
def AllCells : Nat := 0x1FFFFFFFF

/-- The constructor `NewGame`. -/
def NewGame : u3t :=
  { XBoard := EmptyBoard, OBoard := EmptyBoard, ActiveBoard := -1, XTurn := true }

/-! ## Coordinates (`game.go`, lines 28-44) -/

/-- The function `GetBitPosition`. -/
def GetBitPosition (globalRow globalCol : Int) : Int :=
  wrapInt (wrapInt (globalRow * 9) + globalCol)

/-- The function `GetGlobalPosition`. -/
def GetGlobalPosition (board localPos : Int) : Int :=
  let boardRow := Int.tdiv board 3
  let boardCol := Int.tmod board 3
  let localRow := Int.tdiv localPos 3
  let localCol := Int.tmod localPos 3
  let globalRow := wrapInt (wrapInt (boardRow * 3) + localRow)
  let globalCol := wrapInt (wrapInt (boardCol * 3) + localCol)
  GetBitPosition globalRow globalCol

/-! ## Cell queries (`game.go`, lines 46-49 and 122-131) -/

/-- The method `IsEmpty`. -/
def IsEmpty (g : u3t) (bitPos : Int) : Option Bool := do
  let mask ← shl1 bitPos
  pure ((g.XBoard &&& mask) == 0 && (g.OBoard &&& mask) == 0)

/-- The loop of `IsBoardFull` over the remaining local positions. -/
def IsBoardFullLoop (g : u3t) (board : Int) : List Nat → Option Bool
  | [] => some true
  | i :: rest => do
      let bitPos := GetGlobalPosition board (i : Int)
      let e ← IsEmpty g bitPos
      if e then pure false else IsBoardFullLoop g board rest

/-- The method `IsBoardFull`. -/
def IsBoardFull (g : u3t) (board : Int) : Option Bool :=
  IsBoardFullLoop g board (List.range 9)

/-! ## Win detection on a sub-board (`game.go`, lines 81-166) -/

/-- The slice `winPatterns`, written out identically in `IsBoardWon`,
`GetBoardWinner`, `IsGameWon` and `GetGameWinner`. -/
def winPatterns : List Nat :=
  [0x7, 0x38, 0x1C0, 0x49, 0x92, 0x124, 0x111, 0x54]

/-- The first loop of `IsBoardWon` and of `GetBoardWinner` (the same text in
both): it fills `xSmallBoard` and `oSmallBoard` from the nine cells of `board`. -/
def smallBoardsLoop (g : u3t) (board : Int) : List Nat → Nat × Nat → Option (Nat × Nat)
  | [], acc => some acc
  | i :: rest, (xSmallBoard, oSmallBoard) => do
      let bitPos := GetGlobalPosition board (i : Int)
      let mask ← shl1 bitPos
      if (g.XBoard &&& mask) != 0 then
        smallBoardsLoop g board rest (xSmallBoard ||| 2 ^ i, oSmallBoard)
      else if (g.OBoard &&& mask) != 0 then
        smallBoardsLoop g board rest (xSmallBoard, oSmallBoard ||| 2 ^ i)
      else
        smallBoardsLoop g board rest (xSmallBoard, oSmallBoard)

/-- The pair `(xSmallBoard, oSmallBoard)` after the first loop. -/
def smallBoards (g : u3t) (board : Int) : Option (Nat × Nat) :=
  smallBoardsLoop g board (List.range 9) (0, 0)

/-- The pattern loop of `IsBoardWon` and `IsGameWon`: `true` at the first pattern
that one of the two 9-bit boards contains. -/
def anyPattern (x o : Nat) : List Nat → Bool
  | [] => false
  | pattern :: rest =>
      if (x &&& pattern) == pattern then true
      else if (o &&& pattern) == pattern then true
      else anyPattern x o rest

/-- The pattern loop of `GetBoardWinner` and `GetGameWinner`: `1` or `2` at the
first pattern that the X board, respectively the O board, contains, else `0`. -/
def patternWinner (x o : Nat) : List Nat → Int
  | [] => 0
  | pattern :: rest =>
      if (x &&& pattern) == pattern then 1
      else if (o &&& pattern) == pattern then 2
      else patternWinner x o rest

/-- The method `IsBoardWon`. -/
def IsBoardWon (g : u3t) (board : Int) : Option Bool := do
  let (xSmallBoard, oSmallBoard) ← smallBoards g board
  pure (anyPattern xSmallBoard oSmallBoard winPatterns)

/-- The method `GetBoardWinner`. -/
def GetBoardWinner (g : u3t) (board : Int) : Option Int := do
  let won ← IsBoardWon g board
  if !won then pure 0
  else
    let (xSmallBoard, oSmallBoard) ← smallBoards g board
    pure (patternWinner xSmallBoard oSmallBoard winPatterns)

/-! ## Moves (`game.go`, lines 51-79) -/

/-- The state of `MakeMove` after its lines 63-69: the bit `mask` is set for the
player to move and `ActiveBoard` is `localPos`. -/
def markCell (g : u3t) (mask : Nat) (localPos : Int) : u3t :=
  let g1 : u3t :=
    if g.XTurn then { g with XBoard := g.XBoard ||| mask }
    else { g with OBoard := g.OBoard ||| mask }
  { g1 with ActiveBoard := localPos }

/-- The state of `MakeMove` after its lines 71-76: `ActiveBoard` is reset to `-1`
when the destination board is finished, and the turn is switched. -/
def switchTurn (g : u3t) (finished : Bool) : u3t :=
  let g3 : u3t := if finished then { g with ActiveBoard := -1 } else g
  { g3 with XTurn := !g3.XTurn }

/-- The method `MakeMove`: the returned boolean and the state it leaves. -/
def MakeMove (g : u3t) (board localPos : Int) : Option (Bool × u3t) :=
  if g.ActiveBoard != -1 && g.ActiveBoard != board then some (false, g)
  else do
    let bitPos := GetGlobalPosition board localPos
    let mask ← shl1 bitPos
    let empty ← IsEmpty g bitPos
    if !empty then pure (false, g)
    else
      let g2 := markCell g mask localPos
      let full ← IsBoardFull g2 g2.ActiveBoard
      let finished ← if full then pure true else IsBoardWon g2 g2.ActiveBoard
      pure (true, switchTurn g2 finished)

/-! ## Win and draw detection on the whole game (`game.go`, lines 168-246) -/

/-- The first loop of `IsGameWon` and of `GetGameWinner` (the same text in both):
it fills `xMetaBoard` and `oMetaBoard` from the winners of the nine sub-boards. -/
def metaBoardsLoop (g : u3t) : List Nat → Nat × Nat → Option (Nat × Nat)
  | [], acc => some acc
  | board :: rest, (xMetaBoard, oMetaBoard) => do
      let winner ← GetBoardWinner g (board : Int)
      if winner == 1 then
        metaBoardsLoop g rest (xMetaBoard ||| 2 ^ board, oMetaBoard)
      else if winner == 2 then
        metaBoardsLoop g rest (xMetaBoard, oMetaBoard ||| 2 ^ board)
      else
        metaBoardsLoop g rest (xMetaBoard, oMetaBoard)

/-- The pair `(xMetaBoard, oMetaBoard)` after the first loop. -/
def metaBoards (g : u3t) : Option (Nat × Nat) :=
  metaBoardsLoop g (List.range 9) (0, 0)

/-- The method `IsGameWon`. -/
def IsGameWon (g : u3t) : Option Bool := do
  let (xMetaBoard, oMetaBoard) ← metaBoards g
  pure (anyPattern xMetaBoard oMetaBoard winPatterns)

/-- The method `GetGameWinner`. -/
def GetGameWinner (g : u3t) : Option Int := do
  let (xMetaBoard, oMetaBoard) ← metaBoards g
  pure (patternWinner xMetaBoard oMetaBoard winPatterns)

/-- The loop of `IsGameDraw` over the remaining positions. -/
def IsGameDrawLoop (g : u3t) : List Nat → Option Bool
  | [] => some true
  | i :: rest => do
      let e ← IsEmpty g (i : Int)
      if e then pure false else IsGameDrawLoop g rest

/-- The method `IsGameDraw`. -/
def IsGameDraw (g : u3t) : Option Bool := do
  let allFilled ← IsGameDrawLoop g (List.range 81)
  if !allFilled then pure false
  else
    let won ← IsGameWon g
    pure (!won)

/-! ## The cell classification of `PrintBoard` (`game.go`, lines 256-268) -/

/-- The content of the cell at `bitPos` as `PrintBoard` classifies it: `1` for
`'X'`, `2` for `'O'` (tested only when the X bit is clear), `0` for `'.'`. -/
def cellOwner (g : u3t) (bitPos : Int) : Option Int := do
  let mask ← shl1 bitPos
  if (g.XBoard &&& mask) != 0 then pure 1
  else if (g.OBoard &&& mask) != 0 then pure 2
  else pure 0

/-! ## The user interface (`ui.go`, lines 108-137) -/

/-- The pair `(boardIndex, localPosition)` that `updateGame` computes from the
hovered cell (`cellX` is the global column, `cellY` the global row). -/
def hoveredBoardPosition (cellX cellY : Int) : Int × Int :=
  let boardRow := Int.tdiv cellY 3
  let boardCol := Int.tdiv cellX 3
  let boardIndex := wrapInt (wrapInt (boardRow * 3) + boardCol)
  let localRow := Int.tmod cellY 3
  let localCol := Int.tmod cellX 3
  let localPosition := wrapInt (wrapInt (localRow * 3) + localCol)
  (boardIndex, localPosition)

/-- The flag `validMove` that `updateGame` computes before it calls `MakeMove`. -/
def validMove (g : u3t) (hoveredBoard hoveredPosition : Int) : Option Bool :=
  if g.ActiveBoard == -1 || g.ActiveBoard == hoveredBoard then do
    let bitPos := GetGlobalPosition hoveredBoard hoveredPosition
    let e ← IsEmpty g bitPos
    if e then pure true else pure false
  else pure false

/-! ## Sequences of calls -/

/-- Run a sequence of `MakeMove` calls, each with its `(board, localPos)`, one
after the other: the number of calls that returned `true` and the final state;
`none` when a call panics. -/
def runMoves (g : u3t) : List (Int × Int) → Option (Nat × u3t)
  | [] => some (0, g)
  | (board, localPos) :: rest => do
      let (ok, g1) ← MakeMove g board localPos
      let (n, g2) ← runMoves g1 rest
      pure ((if ok then 1 else 0) + n, g2)

/-- A state reached from `NewGame` by some sequence of `MakeMove` calls, whatever
their arguments and results. -/
def Reachable (g : u3t) : Prop :=
  ∃ calls n, runMoves NewGame calls = some (n, g)

/-- Every argument of every call lies in `[0,9)`. -/
def callsInRange (calls : List (Int × Int)) : Prop :=
  ∀ c ∈ calls, (0 ≤ c.1 ∧ c.1 < 9) ∧ (0 ≤ c.2 ∧ c.2 < 9)

/-- A state reached from `NewGame` by `MakeMove` calls with arguments in `[0,9)`
that all returned `true`. -/
def ReachableBySuccess (g : u3t) : Prop :=
  ∃ calls, callsInRange calls ∧ runMoves NewGame calls = some (calls.length, g)

/-! ## Notions used to state the properties -/

/-- The value of `uint64(1) << n` for a non-negative count `n`. -/
def maskAt (n : Int) : Nat := if 64 ≤ n then 0 else 2 ^ n.toNat

/-- The X mask has the bit of local cell `i` of `board` (the test of the first
branch in the loop of `IsBoardWon`). -/
def xAt (g : u3t) (board : Int) (i : Nat) : Bool :=
  (g.XBoard &&& maskAt (GetGlobalPosition board (i : Int))) != 0

/-- The O mask has the bit of local cell `i` of `board` (the test of the second
branch in the loop of `IsBoardWon`). -/
def oAt (g : u3t) (board : Int) (i : Nat) : Bool :=
  (g.OBoard &&& maskAt (GetGlobalPosition board (i : Int))) != 0

/-- The 9-bit board `s` contains every bit of `pattern`. -/
def containsPattern (s pattern : Nat) : Prop := s &&& pattern = pattern

instance (s pattern : Nat) : Decidable (containsPattern s pattern) := by
  unfold containsPattern; infer_instance

/-- The 9-bit board `s` contains one of the eight `winPatterns`. -/
def hasLine (s : Nat) : Prop := ∃ pattern ∈ winPatterns, containsPattern s pattern

instance (s : Nat) : Decidable (hasLine s) := by
  unfold hasLine; infer_instance

/-- The eight lines of tic-tac-toe as sets of local positions: three rows, three
columns, two diagonals. -/
def ticTacToeLines : List (List Nat) :=
  [[0, 1, 2], [3, 4, 5], [6, 7, 8], [0, 3, 6], [1, 4, 7], [2, 5, 8], [0, 4, 8], [2, 4, 6]]

/-- The positions below 9 of the bits set in `pattern`, in increasing order. -/
def bitsOf (pattern : Nat) : List Nat := (List.range 9).filter (fun i => pattern.testBit i)

/-- A state reached from `NewGame` by `MakeMove` calls whose arguments all lie in
`[0,9)`, whatever their results. -/
def ReachableInRange (g : u3t) : Prop :=
  ∃ calls n, callsInRange calls ∧ runMoves NewGame calls = some (n, g)

/-- The eight symmetries of the square as tables on the local positions
`3 * row + col`: entry `i` is the position to which the symmetry moves position `i`.
In order: identity, the rotations by 90, 180 and 270 degrees, the reflections in
the vertical and the horizontal axis, and the reflections in the two diagonals. -/
def squareSymmetries : List (List Nat) :=
  [[0, 1, 2, 3, 4, 5, 6, 7, 8],
   [2, 5, 8, 1, 4, 7, 0, 3, 6],
   [8, 7, 6, 5, 4, 3, 2, 1, 0],
   [6, 3, 0, 7, 4, 1, 8, 5, 2],
   [2, 1, 0, 5, 4, 3, 8, 7, 6],
   [6, 7, 8, 3, 4, 5, 0, 1, 2],
   [0, 3, 6, 1, 4, 7, 2, 5, 8],
   [8, 5, 2, 7, 4, 1, 6, 3, 0]]

/-- The 9-bit pattern `s` moved by the symmetry with table `sym`: bit `sym[i]` of
the result is bit `i` of `s`. -/
def transformPattern (sym : List Nat) (s : Nat) : Nat :=
  (List.range 9).foldl
    (fun acc i => if s.testBit i then acc ||| 2 ^ sym.getD i 0 else acc) 0

/-- The rotation of the 3×3 square by a quarter turn, on local positions:
`(row, col)` goes to `(col, 2 - row)`. -/
def rotate90 (i : Nat) : Nat := 3 * (i % 3) + (2 - i / 3)

/-- The reflection of the 3×3 square in its vertical axis, on local positions:
`(row, col)` goes to `(row, 2 - col)`. -/
def mirror (i : Nat) : Nat := 3 * (i / 3) + (2 - i % 3)

/-- The next move is free (`ActiveBoard = -1`), or it is forced into a sub-board in
`[0,9)` that is neither full nor won. -/
def forcedBoardOpen (g : u3t) : Prop :=
  g.ActiveBoard = -1 ∨
    ((0 ≤ g.ActiveBoard ∧ g.ActiveBoard < 9) ∧
      IsBoardFull g g.ActiveBoard = some false ∧ IsBoardWon g g.ActiveBoard = some false)

/-! ## Auxiliary facts: shifts and coordinates -/

theorem shl1_of_nonneg {n : Int} (h : 0 ≤ n) : shl1 n = some (maskAt n) := by
  have hn : ¬ n < 0 := not_lt.mpr h
  unfold shl1 maskAt
  rw [if_neg hn]
  split <;> rfl

theorem shl1_of_neg {n : Int} (h : n < 0) : shl1 n = none := by
  unfold shl1
  rw [if_pos h]

theorem GetGlobalPosition_bounds {b p : Int} (hb0 : 0 ≤ b) (hb : b < 9)
    (hp0 : 0 ≤ p) (hp : p < 9) :
    0 ≤ GetGlobalPosition b p ∧ GetGlobalPosition b p < 81 := by
  interval_cases b <;> interval_cases p <;> decide

theorem GetGlobalPosition_nonneg_nat {b : Int} (hb0 : 0 ≤ b) (hb : b < 9)
    {i : Nat} (hi : i < 9) : 0 ≤ GetGlobalPosition b (i : Int) :=
  (GetGlobalPosition_bounds hb0 hb (Int.natCast_nonneg i) (by exact_mod_cast hi)).1

theorem IsEmpty_of_nonneg (g : u3t) {n : Int} (h : 0 ≤ n) :
    IsEmpty g n =
      some ((g.XBoard &&& maskAt n) == 0 && (g.OBoard &&& maskAt n) == 0) := by
  simp [IsEmpty, shl1_of_nonneg h]

/-! ## Auxiliary facts: what a call of `MakeMove` that returns has done -/

theorem MakeMove_some {g g' : u3t} {board localPos : Int} {r : Bool}
    (h : MakeMove g board localPos = some (r, g')) :
    (r = false ∧ g' = g ∧
      ((g.ActiveBoard ≠ -1 ∧ g.ActiveBoard ≠ board) ∨
        IsEmpty g (GetGlobalPosition board localPos) = some false)) ∨
    (r = true ∧ ¬ (g.ActiveBoard ≠ -1 ∧ g.ActiveBoard ≠ board) ∧
      ∃ mask finished,
        shl1 (GetGlobalPosition board localPos) = some mask ∧
        IsEmpty g (GetGlobalPosition board localPos) = some true ∧
        ((IsBoardFull (markCell g mask localPos) localPos = some true ∧ finished = true) ∨
          (IsBoardFull (markCell g mask localPos) localPos = some false ∧
            IsBoardWon (markCell g mask localPos) localPos = some finished)) ∧
        g' = switchTurn (markCell g mask localPos) finished) := by
  unfold MakeMove at h
  by_cases hblk : g.ActiveBoard ≠ -1 ∧ g.ActiveBoard ≠ board
  · left
    simp [hblk.1, hblk.2] at h
    exact ⟨h.1, h.2.symm, Or.inl hblk⟩
  · have hcond : (g.ActiveBoard != -1 && g.ActiveBoard != board) = false := by
      simp only [Bool.and_eq_false_iff, bne_eq_false_iff_eq]
      by_contra hc
      push_neg at hc
      exact hblk hc
    rw [hcond] at h
    simp only [Bool.false_eq_true, if_false] at h
    cases hm : shl1 (GetGlobalPosition board localPos) with
    | none => simp [hm] at h
    | some mask =>
      cases he : IsEmpty g (GetGlobalPosition board localPos) with
      | none => simp [hm, he] at h
      | some e =>
        cases e with
        | false =>
          left
          simp [hm, he] at h
          exact ⟨h.1, h.2.symm, Or.inr rfl⟩
        | true =>
          right
          have hact : (markCell g mask localPos).ActiveBoard = localPos := rfl
          simp only [hm, he, Option.bind_eq_bind, Option.some_bind, Bool.not_true,
            Bool.false_eq_true, if_false, hact] at h
          cases hf : IsBoardFull (markCell g mask localPos) localPos with
          | none => simp [hf] at h
          | some full =>
            cases full with
            | true =>
              simp [hf] at h
              exact ⟨h.1, hblk, mask, true, rfl, rfl, Or.inl ⟨hf, rfl⟩, h.2.symm⟩
            | false =>
              cases hw : IsBoardWon (markCell g mask localPos) localPos with
              | none => simp [hf, hw] at h
              | some won =>
                simp [hf, hw] at h
                exact ⟨h.1, hblk, mask, won, rfl, rfl, Or.inr ⟨hf, hw⟩, h.2.symm⟩

/-! ## Auxiliary facts: the loops over the nine cells of a sub-board -/

theorem IsEmpty_cell (g : u3t) {b : Int} (hb0 : 0 ≤ b) (hb : b < 9) {i : Nat}
    (hi : i < 9) :
    IsEmpty g (GetGlobalPosition b (i : Int)) = some (!(xAt g b i || oAt g b i)) := by
  rw [IsEmpty_of_nonneg g (GetGlobalPosition_nonneg_nat hb0 hb hi)]
  simp only [xAt, oAt, bne, Bool.not_or, Bool.not_not]

theorem IsBoardFullLoop_eq (g : u3t) {b : Int} (hb0 : 0 ≤ b) (hb : b < 9) :
    ∀ l : List Nat, (∀ i ∈ l, i < 9) →
      IsBoardFullLoop g b l = some (l.all fun i => xAt g b i || oAt g b i) := by
  intro l
  induction l with
  | nil => intro _; rfl
  | cons i rest ih =>
    intro h
    have hi : i < 9 := h i (List.mem_cons_self _ _)
    have hrest := ih (fun j hj => h j (List.mem_cons_of_mem _ hj))
    simp only [IsBoardFullLoop, IsEmpty_cell g hb0 hb hi, hrest, List.all_cons,
      Option.bind_eq_bind, Option.some_bind]
    cases hc : (xAt g b i || oAt g b i) <;> simp

theorem IsBoardFull_eq (g : u3t) {b : Int} (hb0 : 0 ≤ b) (hb : b < 9) :
    IsBoardFull g b = some ((List.range 9).all fun i => xAt g b i || oAt g b i) :=
  IsBoardFullLoop_eq g hb0 hb _ (fun _ hi => List.mem_range.mp hi)

theorem smallBoardsLoop_spec (g : u3t) {b : Int} (hb0 : 0 ≤ b) (hb : b < 9) :
    ∀ (l : List Nat) (x0 o0 : Nat), (∀ i ∈ l, i < 9) →
      ∃ x o, smallBoardsLoop g b l (x0, o0) = some (x, o) ∧
        (∀ j, x.testBit j = (x0.testBit j || (decide (j ∈ l) && xAt g b j))) ∧
        (∀ j, o.testBit j =
          (o0.testBit j || (decide (j ∈ l) && (!xAt g b j && oAt g b j)))) := by
  intro l
  induction l with
  | nil => intro x0 o0 _; exact ⟨x0, o0, rfl, by simp, by simp⟩
  | cons i rest ih =>
    intro x0 o0 h
    have hi : i < 9 := h i (List.mem_cons_self _ _)
    have hrest : ∀ j ∈ rest, j < 9 := fun j hj => h j (List.mem_cons_of_mem _ hj)
    have hsh := shl1_of_nonneg (GetGlobalPosition_nonneg_nat hb0 hb hi)
    by_cases hx : xAt g b i = true
    · obtain ⟨x, o, hrun, hxs, hos⟩ := ih (x0 ||| 2 ^ i) o0 hrest
      refine ⟨x, o, ?_, ?_, ?_⟩
      · have hx' := hx
        unfold xAt at hx'
        simp only [smallBoardsLoop, hsh, Option.bind_eq_bind, Option.some_bind, hx',
          if_true, hrun]
      · intro j
        rw [hxs j, Nat.testBit_or, Nat.testBit_two_pow]
        by_cases hji : j = i
        · subst hji; simp [hx]
        · have hij : ¬ i = j := fun e => hji e.symm
          simp [hji, hij]
      · intro j
        rw [hos j]
        by_cases hji : j = i
        · subst hji; simp [hx]
        · simp [hji]
    · have hxf : xAt g b i = false := by simpa using hx
      by_cases ho : oAt g b i = true
      · obtain ⟨x, o, hrun, hxs, hos⟩ := ih x0 (o0 ||| 2 ^ i) hrest
        refine ⟨x, o, ?_, ?_, ?_⟩
        · have hx' := hxf
          have ho' := ho
          unfold xAt at hx'
          unfold oAt at ho'
          simp only [smallBoardsLoop, hsh, Option.bind_eq_bind, Option.some_bind, hx',
            ho', if_true, Bool.false_eq_true, if_false, hrun]
        · intro j
          rw [hxs j]
          by_cases hji : j = i
          · subst hji; simp [hxf]
          · simp [hji]
        · intro j
          rw [hos j, Nat.testBit_or, Nat.testBit_two_pow]
          by_cases hji : j = i
          · subst hji; simp [hxf, ho]
          · have hij : ¬ i = j := fun e => hji e.symm
            simp [hji, hij]
      · have hof : oAt g b i = false := by simpa using ho
        obtain ⟨x, o, hrun, hxs, hos⟩ := ih x0 o0 hrest
        refine ⟨x, o, ?_, ?_, ?_⟩
        · have hx' := hxf
          have ho' := hof
          unfold xAt at hx'
          unfold oAt at ho'
          simp only [smallBoardsLoop, hsh, Option.bind_eq_bind, Option.some_bind, hx',
            ho', Bool.false_eq_true, if_false, hrun]
        · intro j
          rw [hxs j]
          by_cases hji : j = i
          · subst hji; simp [hxf]
          · simp [hji]
        · intro j
          rw [hos j]
          by_cases hji : j = i
          · subst hji; simp [hxf, hof]
          · simp [hji]

theorem smallBoards_spec (g : u3t) {b : Int} (hb0 : 0 ≤ b) (hb : b < 9) :
    ∃ x o, smallBoards g b = some (x, o) ∧
      (∀ j, x.testBit j = (decide (j < 9) && xAt g b j)) ∧
      (∀ j, o.testBit j = (decide (j < 9) && (!xAt g b j && oAt g b j))) := by
  obtain ⟨x, o, hrun, hxs, hos⟩ :=
    smallBoardsLoop_spec g hb0 hb (List.range 9) 0 0 (fun _ hi => List.mem_range.mp hi)
  refine ⟨x, o, hrun, ?_, ?_⟩
  · intro j; rw [hxs j]; simp [List.mem_range]
  · intro j; rw [hos j]; simp [List.mem_range]

/-! ## Auxiliary facts: the loops over the eight win patterns -/

theorem anyPattern_iff (x o : Nat) (l : List Nat) :
    anyPattern x o l = true ↔
      ∃ pattern ∈ l, containsPattern x pattern ∨ containsPattern o pattern := by
  induction l with
  | nil => simp [anyPattern]
  | cons pat rest ih =>
    unfold anyPattern
    by_cases hx : x &&& pat = pat
    · simp [hx, containsPattern]
    · by_cases ho : o &&& pat = pat
      · simp [ho, containsPattern]
      · simp [hx, ho, ih, containsPattern]

theorem patternWinner_range (x o : Nat) (l : List Nat) :
    patternWinner x o l = 0 ∨ patternWinner x o l = 1 ∨ patternWinner x o l = 2 := by
  induction l with
  | nil => left; rfl
  | cons pat rest ih =>
    unfold patternWinner
    by_cases hx : x &&& pat = pat
    · simp [hx]
    · by_cases ho : o &&& pat = pat
      · simp [hx, ho]
      · simpa [hx, ho] using ih

theorem patternWinner_eq_zero_iff (x o : Nat) (l : List Nat) :
    patternWinner x o l = 0 ↔
      ∀ pattern ∈ l, ¬ containsPattern x pattern ∧ ¬ containsPattern o pattern := by
  induction l with
  | nil => simp [patternWinner]
  | cons pat rest ih =>
    unfold patternWinner
    by_cases hx : x &&& pat = pat
    · simp [hx, containsPattern]
    · by_cases ho : o &&& pat = pat
      · simp [hx, ho, containsPattern]
      · simp [hx, ho, ih, containsPattern]

theorem patternWinner_eq_one (x o : Nat) (l : List Nat)
    (h : patternWinner x o l = 1) : ∃ pattern ∈ l, containsPattern x pattern := by
  induction l with
  | nil => simp [patternWinner] at h
  | cons pat rest ih =>
    unfold patternWinner at h
    by_cases hx : x &&& pat = pat
    · exact ⟨pat, List.mem_cons_self _ _, hx⟩
    · by_cases ho : o &&& pat = pat
      · simp [hx, ho] at h
      · simp only [hx, ho, beq_iff_eq, if_false] at h
        obtain ⟨q, hq, hc⟩ := ih h
        exact ⟨q, List.mem_cons_of_mem _ hq, hc⟩

theorem patternWinner_eq_two (x o : Nat) (l : List Nat)
    (h : patternWinner x o l = 2) : ∃ pattern ∈ l, containsPattern o pattern := by
  induction l with
  | nil => simp [patternWinner] at h
  | cons pat rest ih =>
    unfold patternWinner at h
    by_cases hx : x &&& pat = pat
    · simp [hx] at h
    · by_cases ho : o &&& pat = pat
      · exact ⟨pat, List.mem_cons_self _ _, ho⟩
      · simp only [hx, ho, beq_iff_eq, if_false] at h
        obtain ⟨q, hq, hc⟩ := ih h
        exact ⟨q, List.mem_cons_of_mem _ hq, hc⟩

theorem patternWinner_find (x o : Nat) (l : List Nat) (pattern : Nat)
    (h : l.find? (fun q => decide (containsPattern x q) || decide (containsPattern o q))
      = some pattern) :
    patternWinner x o l = if containsPattern x pattern then 1 else 2 := by
  induction l with
  | nil => simp at h
  | cons pat rest ih =>
    unfold patternWinner
    by_cases hx : x &&& pat = pat
    · have hc : containsPattern x pat := hx
      simp only [List.find?, hc, decide_True, Bool.true_or, Option.some.injEq] at h
      subst h
      simp [hx, hc]
    · by_cases ho : o &&& pat = pat
      · have hcx : ¬ containsPattern x pat := hx
        have hco : containsPattern o pat := ho
        simp only [List.find?, hcx, hco, decide_False, decide_True, Bool.or_true,
          Option.some.injEq] at h
        subst h
        simp [hx, ho, hcx]
      · have hcx : ¬ containsPattern x pat := hx
        have hco : ¬ containsPattern o pat := ho
        simp only [List.find?, hcx, hco, decide_False, Bool.or_false] at h
        simpa [hx, ho] using ih h

theorem anyPattern_eq_patternWinner (x o : Nat) (l : List Nat) :
    anyPattern x o l = true ↔ patternWinner x o l ≠ 0 := by
  rw [anyPattern_iff, Ne, patternWinner_eq_zero_iff]
  constructor
  · rintro ⟨q, hq, hc⟩ hall
    rcases hc with hc | hc
    · exact (hall q hq).1 hc
    · exact (hall q hq).2 hc
  · intro hn
    by_contra hc
    apply hn
    intro q hq
    constructor
    · intro hx; exact hc ⟨q, hq, Or.inl hx⟩
    · intro ho; exact hc ⟨q, hq, Or.inr ho⟩

/-! ## Auxiliary facts: the queries on a sub-board in `[0,9)` -/

theorem boardQueries_spec (g : u3t) {b : Int} (hb0 : 0 ≤ b) (hb : b < 9) :
    ∃ x o, smallBoards g b = some (x, o) ∧
      (∀ j, x.testBit j = (decide (j < 9) && xAt g b j)) ∧
      (∀ j, o.testBit j = (decide (j < 9) && (!xAt g b j && oAt g b j))) ∧
      IsBoardWon g b = some (anyPattern x o winPatterns) ∧
      GetBoardWinner g b = some (patternWinner x o winPatterns) := by
  obtain ⟨x, o, hs, hx, ho⟩ := smallBoards_spec g hb0 hb
  have hw : IsBoardWon g b = some (anyPattern x o winPatterns) := by
    simp [IsBoardWon, hs]
  refine ⟨x, o, hs, hx, ho, hw, ?_⟩
  unfold GetBoardWinner
  rw [hw]
  cases ha : anyPattern x o winPatterns with
  | true => simp [hs]
  | false =>
    have hz : patternWinner x o winPatterns = 0 := by
      by_contra hne
      have := (anyPattern_eq_patternWinner x o winPatterns).mpr hne
      rw [ha] at this
      exact Bool.false_ne_true this
    simp [hz]

/-! ## Auxiliary facts: `MakeMove` with arguments in `[0,9)` -/

theorem IsBoardFullLoop_congr {g g' : u3t} (hx : g.XBoard = g'.XBoard)
    (ho : g.OBoard = g'.OBoard) (b : Int) :
    ∀ l, IsBoardFullLoop g b l = IsBoardFullLoop g' b l := by
  intro l
  induction l with
  | nil => rfl
  | cons i rest ih => simp only [IsBoardFullLoop, IsEmpty, hx, ho, ih]

theorem smallBoardsLoop_congr {g g' : u3t} (hx : g.XBoard = g'.XBoard)
    (ho : g.OBoard = g'.OBoard) (b : Int) :
    ∀ l acc, smallBoardsLoop g b l acc = smallBoardsLoop g' b l acc := by
  intro l
  induction l with
  | nil => intro acc; rfl
  | cons i rest ih =>
    intro acc
    obtain ⟨x0, o0⟩ := acc
    simp only [smallBoardsLoop, hx, ho, ih]

theorem IsBoardFull_congr {g g' : u3t} (hx : g.XBoard = g'.XBoard)
    (ho : g.OBoard = g'.OBoard) (b : Int) : IsBoardFull g b = IsBoardFull g' b :=
  IsBoardFullLoop_congr hx ho b _

theorem IsBoardWon_congr {g g' : u3t} (hx : g.XBoard = g'.XBoard)
    (ho : g.OBoard = g'.OBoard) (b : Int) : IsBoardWon g b = IsBoardWon g' b := by
  unfold IsBoardWon smallBoards
  rw [smallBoardsLoop_congr hx ho]

theorem switchTurn_XBoard (g : u3t) (f : Bool) : (switchTurn g f).XBoard = g.XBoard := by
  cases f <;> rfl

theorem switchTurn_OBoard (g : u3t) (f : Bool) : (switchTurn g f).OBoard = g.OBoard := by
  cases f <;> rfl

theorem switchTurn_XTurn (g : u3t) (f : Bool) : (switchTurn g f).XTurn = !g.XTurn := by
  cases f <;> rfl

theorem switchTurn_ActiveBoard (g : u3t) (f : Bool) :
    (switchTurn g f).ActiveBoard = if f = true then -1 else g.ActiveBoard := by
  cases f <;> rfl

theorem MakeMove_inRange (g : u3t) {b p : Int} (hb0 : 0 ≤ b) (hb : b < 9)
    (hp0 : 0 ≤ p) (hp : p < 9) :
    ∃ finished : Bool,
      (finished = true ↔
        IsBoardFull (markCell g (maskAt (GetGlobalPosition b p)) p) p = some true ∨
        IsBoardWon (markCell g (maskAt (GetGlobalPosition b p)) p) p = some true) ∧
      MakeMove g b p =
        if (g.ActiveBoard ≠ -1 ∧ g.ActiveBoard ≠ b) ∨
            IsEmpty g (GetGlobalPosition b p) = some false then some (false, g)
        else some (true, switchTurn (markCell g (maskAt (GetGlobalPosition b p)) p) finished) := by
  have hpos := (GetGlobalPosition_bounds hb0 hb hp0 hp).1
  have hsh := shl1_of_nonneg hpos
  have hemp := IsEmpty_of_nonneg g hpos
  have hfull := IsBoardFull_eq (markCell g (maskAt (GetGlobalPosition b p)) p) hp0 hp
  obtain ⟨x, o, -, -, -, hwon, -⟩ :=
    boardQueries_spec (markCell g (maskAt (GetGlobalPosition b p)) p) hp0 hp
  generalize hF : ((List.range 9).all fun i =>
    xAt (markCell g (maskAt (GetGlobalPosition b p)) p) p i ||
      oAt (markCell g (maskAt (GetGlobalPosition b p)) p) p i) = full at hfull
  generalize hW : anyPattern x o winPatterns = won at hwon
  generalize hE : ((g.XBoard &&& maskAt (GetGlobalPosition b p)) == 0 &&
    (g.OBoard &&& maskAt (GetGlobalPosition b p)) == 0) = e at hemp
  have hact : (markCell g (maskAt (GetGlobalPosition b p)) p).ActiveBoard = p := rfl
  refine ⟨full || won, ?_, ?_⟩
  · rw [hfull, hwon]
    cases full <;> cases won <;> simp
  · unfold MakeMove
    by_cases hblk : g.ActiveBoard ≠ -1 ∧ g.ActiveBoard ≠ b
    · simp [hblk.1, hblk.2]
    · have hcond : (g.ActiveBoard != -1 && g.ActiveBoard != b) = false := by
        simp only [Bool.and_eq_false_iff, bne_eq_false_iff_eq]
        by_contra hc
        push_neg at hc
        exact hblk hc
      simp only [hcond, hsh, hemp, Bool.false_eq_true, if_false, Option.bind_eq_bind,
        Option.some_bind, hact, hfull, hblk, false_or, Option.some.injEq]
      cases e <;> cases full <;> cases won <;> simp [hwon]

/-! ## Recording a move -/

theorem lor_land_self (x m : Nat) : (x ||| m) &&& m = m := by
  apply Nat.eq_of_testBit_eq
  intro i
  rw [Nat.testBit_and, Nat.testBit_or]
  cases x.testBit i <;> cases m.testBit i <;> rfl

/-- A successful move on a cell whose position is below 64 sets exactly that bit
in the mask of the player to move, leaves the other mask alone, and the cell is no
longer empty. -/
theorem MakeMove_records_below_64 (g g' : u3t) (b p : Int) (hb0 : 0 ≤ b) (hb : b < 9)
    (hp0 : 0 ≤ p) (hp : p < 9) (h64 : GetGlobalPosition b p < 64)
    (h : MakeMove g b p = some (true, g')) :
    g'.XBoard = (if g.XTurn then g.XBoard ||| 2 ^ (GetGlobalPosition b p).toNat
      else g.XBoard) ∧
    g'.OBoard = (if g.XTurn then g.OBoard
      else g.OBoard ||| 2 ^ (GetGlobalPosition b p).toNat) ∧
    IsEmpty g' (GetGlobalPosition b p) = some false := by
  have hpos := (GetGlobalPosition_bounds hb0 hb hp0 hp).1
  have hm : maskAt (GetGlobalPosition b p) = 2 ^ (GetGlobalPosition b p).toNat := by
    unfold maskAt
    rw [if_neg (not_le.mpr h64)]
  obtain ⟨f, -, heq⟩ := MakeMove_inRange g hb0 hb hp0 hp
  rw [heq] at h
  split at h
  · simp at h
  · simp only [Option.some.injEq, Prod.mk.injEq, true_and] at h
    subst h
    rw [IsEmpty_of_nonneg _ hpos, switchTurn_XBoard, switchTurn_OBoard, hm]
    have hne : (2 : Nat) ^ (GetGlobalPosition b p).toNat ≠ 0 := by positivity
    cases ht : g.XTurn
    · simp [markCell, ht, lor_land_self, hne]
    · simp [markCell, ht, lor_land_self, hne]

/-- C1 (defect of the code): the claim fails at cell 80. From `NewGame`, the call
`MakeMove(8, 8)` addresses position `GetGlobalPosition(8, 8) = 80`; the mask
`uint64(1) << 80` is `0`, so the call returns `true`, switches the turn and sets
no bit: `XBoard` is still `0` and `IsEmpty(80)` is still `true` afterwards. -/
theorem MakeMove_cell_80_not_recorded :
    GetGlobalPosition 8 8 = 80 ∧
    MakeMove NewGame 8 8 =
      some (true, { XBoard := 0, OBoard := 0, ActiveBoard := 8, XTurn := false }) ∧
    IsEmpty { XBoard := 0, OBoard := 0, ActiveBoard := 8, XTurn := false } 80 =
      some true := by
  decide

/-! ## Finished sub-boards and further moves -/

/-- C2 (the claim as stated fails): after the five successful calls
`MakeMove(0,1)`, `(1,0)`, `(0,2)`, `(2,0)`, `(0,0)` from `NewGame`, X holds the
top row of sub-board 0, so `IsBoardWon(0)` is `true`, the active board is `-1`,
and `MakeMove(0, 3)` still returns `true`. -/
theorem won_board_accepts_move :
    runMoves NewGame [(0, 1), (1, 0), (0, 2), (2, 0), (0, 0)] =
      some (5, { XBoard := 7, OBoard := 72, ActiveBoard := -1, XTurn := false }) ∧
    ReachableBySuccess { XBoard := 7, OBoard := 72, ActiveBoard := -1, XTurn := false } ∧
    IsBoardWon { XBoard := 7, OBoard := 72, ActiveBoard := -1, XTurn := false } 0 =
      some true ∧
    MakeMove { XBoard := 7, OBoard := 72, ActiveBoard := -1, XTurn := false } 0 3 =
      some (true, { XBoard := 7, OBoard := 584, ActiveBoard := 3, XTurn := true }) := by
  refine ⟨by decide, ⟨[(0, 1), (1, 0), (0, 2), (2, 0), (0, 0)], ?_, by decide⟩,
    by decide, by decide⟩
  unfold callsInRange
  decide

/-- C2 (amended): a full sub-board accepts no move. In every state, for every
board `b` in `[0,9)` with `IsBoardFull(b)` and every `localPos` in `[0,9)`,
`MakeMove(b, localPos)` returns `false` and leaves the state as it was. -/
theorem full_board_rejects_moves (g : u3t) (b p : Int) (hb0 : 0 ≤ b) (hb : b < 9)
    (hp0 : 0 ≤ p) (hp : p < 9) (hfull : IsBoardFull g b = some true) :
    MakeMove g b p = some (false, g) := by
  obtain ⟨i, hi, hpi⟩ : ∃ i : Nat, i < 9 ∧ p = (i : Int) :=
    ⟨p.toNat, by omega, by omega⟩
  subst hpi
  rw [IsBoardFull_eq g hb0 hb] at hfull
  simp only [Option.some.injEq, List.all_eq_true, List.mem_range] at hfull
  have hcell := hfull i hi
  have hemp : IsEmpty g (GetGlobalPosition b (i : Int)) = some false := by
    rw [IsEmpty_cell g hb0 hb hi, hcell]
    rfl
  obtain ⟨f, -, heq⟩ := MakeMove_inRange g hb0 hb hp0 hp
  rw [heq, if_pos (Or.inr hemp)]

/-- Witness for C2 (amended), a full sub-board: sub-board 0 with X on the
cells 0, 2, 3, 7, 8 and O on the cells 1, 4, 5, 6 (no line of either player). -/
theorem full_board_rejects_moves_witness :
    IsBoardFull { XBoard := 1573381, OBoard := 265218, ActiveBoard := -1, XTurn := true }
      0 = some true ∧
    MakeMove { XBoard := 1573381, OBoard := 265218, ActiveBoard := -1, XTurn := true }
      0 4 =
      some (false,
        { XBoard := 1573381, OBoard := 265218, ActiveBoard := -1, XTurn := true }) :=
  ⟨by decide,
    full_board_rejects_moves
      { XBoard := 1573381, OBoard := 265218, ActiveBoard := -1, XTurn := true } 0 4
      (by decide) (by decide) (by decide) (by decide) (by decide)⟩

/-! ## The winner of a sub-board -/

/-- C3 (the claim as stated fails): the thirteen successful calls below lead from
`NewGame` to a state in which the pattern of X in sub-board 1 is `0x38` (the middle
row, a win line) and the pattern of O is `0x7` (the top row); `GetBoardWinner(1)`
returns `2`, not `1`, because the top row comes first in `winPatterns`. -/
theorem GetBoardWinner_O_line_first :
    runMoves NewGame
        [(1, 5), (5, 1), (1, 3), (3, 3), (3, 1), (1, 2), (2, 5), (5, 2), (2, 1), (1, 0),
          (0, 1), (1, 1), (1, 4)] =
      some (13,
        { XBoard := 268595330, OBoard := 120259084344, ActiveBoard := 4, XTurn := false }) ∧
    smallBoards
        { XBoard := 268595330, OBoard := 120259084344, ActiveBoard := 4, XTurn := false } 1 =
      some (0x38, 0x7) ∧
    hasLine 0x38 ∧
    GetBoardWinner
        { XBoard := 268595330, OBoard := 120259084344, ActiveBoard := 4, XTurn := false } 1 =
      some 2 := by
  refine ⟨by decide, by decide, ?_, by decide⟩
  exact ⟨0x38, by decide, by decide⟩

/-- C3 (amended): for every state and every board `b` in `[0,9)`, with `x` and `o`
the 9-bit patterns of X and O in `b`, `GetBoardWinner(b)` returns a value `w` in
`{0,1,2}` such that: `w = 1` when `x` contains a win line and `o` contains none;
`w = 2` when `o` contains a win line and `x` contains none; `w = 0` exactly when
neither contains one; `w = 1` only when `x` contains a line and `w = 2` only when
`o` does; and when `q` is the first of the `winPatterns` that `x` or `o` contains,
`w` is `1` if `x` contains `q` and `2` otherwise. -/
theorem GetBoardWinner_first_line (g : u3t) (b : Int) (hb0 : 0 ≤ b) (hb : b < 9) :
    ∃ x o w, smallBoards g b = some (x, o) ∧ GetBoardWinner g b = some w ∧
      (w = 0 ∨ w = 1 ∨ w = 2) ∧
      (hasLine x → ¬ hasLine o → w = 1) ∧
      (hasLine o → ¬ hasLine x → w = 2) ∧
      (w = 0 ↔ ¬ hasLine x ∧ ¬ hasLine o) ∧
      (w = 1 → hasLine x) ∧
      (w = 2 → hasLine o) ∧
      (∀ q, winPatterns.find?
          (fun q => decide (containsPattern x q) || decide (containsPattern o q)) = some q →
        w = if containsPattern x q then 1 else 2) := by
  obtain ⟨x, o, hs, -, -, -, hw⟩ := boardQueries_spec g hb0 hb
  have hzero : patternWinner x o winPatterns = 0 ↔ ¬ hasLine x ∧ ¬ hasLine o := by
    rw [patternWinner_eq_zero_iff]
    constructor
    · intro hall
      exact ⟨fun ⟨q, hq, hc⟩ => (hall q hq).1 hc, fun ⟨q, hq, hc⟩ => (hall q hq).2 hc⟩
    · intro hno q hq
      exact ⟨fun hc => hno.1 ⟨q, hq, hc⟩, fun hc => hno.2 ⟨q, hq, hc⟩⟩
  have hrange := patternWinner_range x o winPatterns
  refine ⟨x, o, patternWinner x o winPatterns, hs, hw, hrange, ?_, ?_, hzero,
    patternWinner_eq_one x o winPatterns, patternWinner_eq_two x o winPatterns,
    fun q hq => patternWinner_find x o winPatterns q hq⟩
  · intro hx ho
    rcases hrange with h0 | h1 | h2
    · exact absurd hx (hzero.mp h0).1
    · exact h1
    · exact absurd (patternWinner_eq_two x o winPatterns h2) ho
  · intro ho hx
    rcases hrange with h0 | h1 | h2
    · exact absurd ho (hzero.mp h0).2
    · exact absurd (patternWinner_eq_one x o winPatterns h1) hx
    · exact h2

/-- Witness for C3 (amended): sub-board 1 of the state in which X holds its middle
row and O its top row. -/
theorem GetBoardWinner_first_line_witness :
    ∃ x o w,
      smallBoards
          { XBoard := 268595330, OBoard := 120259084344, ActiveBoard := 4, XTurn := false }
          1 = some (x, o) ∧
      GetBoardWinner
          { XBoard := 268595330, OBoard := 120259084344, ActiveBoard := 4, XTurn := false }
          1 = some w ∧
      (w = 0 ∨ w = 1 ∨ w = 2) ∧
      (hasLine x → ¬ hasLine o → w = 1) ∧
      (hasLine o → ¬ hasLine x → w = 2) ∧
      (w = 0 ↔ ¬ hasLine x ∧ ¬ hasLine o) ∧
      (w = 1 → hasLine x) ∧
      (w = 2 → hasLine o) ∧
      (∀ q, winPatterns.find?
          (fun q => decide (containsPattern x q) || decide (containsPattern o q)) = some q →
        w = if containsPattern x q then 1 else 2) :=
  GetBoardWinner_first_line
    { XBoard := 268595330, OBoard := 120259084344, ActiveBoard := 4, XTurn := false } 1
    (by decide) (by decide)

/-! ## Legality of a move -/

/-- C4: for every state and every `board`, `localPos` in `[0,9)`, `MakeMove`
returns (it does not panic); it returns `false` iff the active board is neither
`-1` nor `board`, or the addressed cell is not empty; and when it returns `false`
the state (`XBoard`, `OBoard`, `ActiveBoard`, `XTurn`) is unchanged. -/
theorem MakeMove_rejects_exactly_illegal (g : u3t) (board localPos : Int)
    (hb0 : 0 ≤ board) (hb : board < 9) (hp0 : 0 ≤ localPos) (hp : localPos < 9) :
    ∃ r g', MakeMove g board localPos = some (r, g') ∧
      (r = false ↔
        ((g.ActiveBoard ≠ -1 ∧ g.ActiveBoard ≠ board) ∨
          IsEmpty g (GetGlobalPosition board localPos) = some false)) ∧
      (r = false →
        g'.XBoard = g.XBoard ∧ g'.OBoard = g.OBoard ∧
          g'.ActiveBoard = g.ActiveBoard ∧ g'.XTurn = g.XTurn) := by
  obtain ⟨f, -, heq⟩ := MakeMove_inRange g hb0 hb hp0 hp
  by_cases hc : (g.ActiveBoard ≠ -1 ∧ g.ActiveBoard ≠ board) ∨
      IsEmpty g (GetGlobalPosition board localPos) = some false
  · rw [if_pos hc] at heq
    exact ⟨false, g, heq, ⟨fun _ => hc, fun _ => rfl⟩, fun _ => ⟨rfl, rfl, rfl, rfl⟩⟩
  · rw [if_neg hc] at heq
    refine ⟨true, _, heq, ⟨fun h => ?_, fun h => absurd h hc⟩, fun h => ?_⟩
    · exact absurd h (by decide)
    · exact absurd h (by decide)

/-- Witness for C4: the state after `MakeMove(0,4)` from `NewGame`, where the active board
is 4: the call `MakeMove(0, 0)` is one with arguments in `[0,9)`. -/
theorem MakeMove_rejects_exactly_illegal_witness :
    ∃ r g',
      MakeMove { XBoard := 1024, OBoard := 0, ActiveBoard := 4, XTurn := false } 0 0 =
        some (r, g') ∧
      (r = false ↔
        (((4 : Int) ≠ -1 ∧ (4 : Int) ≠ 0) ∨
          IsEmpty { XBoard := 1024, OBoard := 0, ActiveBoard := 4, XTurn := false }
            (GetGlobalPosition 0 0) = some false)) ∧
      (r = false →
        g'.XBoard = 1024 ∧ g'.OBoard = 0 ∧ g'.ActiveBoard = 4 ∧ g'.XTurn = false) :=
  MakeMove_rejects_exactly_illegal
    { XBoard := 1024, OBoard := 0, ActiveBoard := 4, XTurn := false } 0 0
    (by decide) (by decide) (by decide) (by decide)

/-! ## Routing to the next sub-board -/

/-- C5: for every state and every `board`, `p` in `[0,9)`, after a successful
`MakeMove(board, p)` the new `ActiveBoard` is `-1` when sub-board `p` is won or
full in the resulting state and `p` otherwise. Scenario: from `NewGame`,
`MakeMove(0,4)` succeeds and gives `ActiveBoard = 4`, `XTurn = false`; then
`MakeMove(4,0)` succeeds and gives `ActiveBoard = 0`. -/
theorem MakeMove_routes_active_board (g g' : u3t) (board p : Int)
    (hb0 : 0 ≤ board) (hb : board < 9) (hp0 : 0 ≤ p) (hp : p < 9)
    (h : MakeMove g board p = some (true, g')) :
    g'.ActiveBoard =
        (if IsBoardWon g' p = some true ∨ IsBoardFull g' p = some true then -1 else p) ∧
      MakeMove NewGame 0 4 =
        some (true, { XBoard := 1024, OBoard := 0, ActiveBoard := 4, XTurn := false }) ∧
      MakeMove { XBoard := 1024, OBoard := 0, ActiveBoard := 4, XTurn := false } 4 0 =
        some (true,
          { XBoard := 1024, OBoard := 1073741824, ActiveBoard := 0, XTurn := true }) := by
  refine ⟨?_, by decide, by decide⟩
  obtain ⟨f, hf, heq⟩ := MakeMove_inRange g hb0 hb hp0 hp
  rw [heq] at h
  split at h
  · simp at h
  · simp only [Option.some.injEq, Prod.mk.injEq, true_and] at h
    subst h
    rw [IsBoardWon_congr (switchTurn_XBoard _ f) (switchTurn_OBoard _ f) p,
      IsBoardFull_congr (switchTurn_XBoard _ f) (switchTurn_OBoard _ f) p,
      switchTurn_ActiveBoard]
    have hact : (markCell g (maskAt (GetGlobalPosition board p)) p).ActiveBoard = p := rfl
    rw [hact]
    by_cases hft : f = true
    · rw [if_pos hft, if_pos ((Or.comm).mp (hf.mp hft))]
    · have hn : ¬ (IsBoardWon (markCell g (maskAt (GetGlobalPosition board p)) p) p
          = some true ∨
          IsBoardFull (markCell g (maskAt (GetGlobalPosition board p)) p) p = some true) :=
        fun hc => hft (hf.mpr ((Or.comm).mp hc))
      rw [if_neg hft, if_neg hn]

/-- Witness for C5: the first move of the scenario: `MakeMove(0,4)` on `NewGame`. -/
theorem MakeMove_routes_active_board_witness :
    (4 : Int) =
        (if IsBoardWon { XBoard := 1024, OBoard := 0, ActiveBoard := 4, XTurn := false } 4
              = some true ∨
            IsBoardFull { XBoard := 1024, OBoard := 0, ActiveBoard := 4, XTurn := false } 4
              = some true then -1 else 4) ∧
      MakeMove NewGame 0 4 =
        some (true, { XBoard := 1024, OBoard := 0, ActiveBoard := 4, XTurn := false }) ∧
      MakeMove { XBoard := 1024, OBoard := 0, ActiveBoard := 4, XTurn := false } 4 0 =
        some (true,
          { XBoard := 1024, OBoard := 1073741824, ActiveBoard := 0, XTurn := true }) :=
  MakeMove_routes_active_board NewGame
    { XBoard := 1024, OBoard := 0, ActiveBoard := 4, XTurn := false } 0 4
    (by decide) (by decide) (by decide) (by decide) (by decide)

/-! ## Invariants along sequences of calls -/

theorem land_lor_eq_zero {x o m : Nat} (hxo : x &&& o = 0) (hm : m &&& o = 0) :
    (x ||| m) &&& o = 0 := by
  apply Nat.eq_of_testBit_eq
  intro i
  have h1 := congrArg (fun n => Nat.testBit n i) hxo
  have h2 := congrArg (fun n => Nat.testBit n i) hm
  simp only [Nat.testBit_and, Nat.zero_testBit] at h1 h2
  rw [Nat.testBit_and, Nat.testBit_or, Nat.zero_testBit]
  cases hx : x.testBit i <;> cases ho : o.testBit i <;> cases hmm : m.testBit i <;>
    simp_all

theorem MakeMove_keeps_disjoint {g g' : u3t} {board localPos : Int} {r : Bool}
    (h : MakeMove g board localPos = some (r, g')) (hd : g.XBoard &&& g.OBoard = 0) :
    g'.XBoard &&& g'.OBoard = 0 := by
  rcases MakeMove_some h with ⟨-, hg, -⟩ | ⟨-, -, mask, f, hsh, hemp, -, hg⟩
  · rw [hg]; exact hd
  · subst hg
    rw [switchTurn_XBoard, switchTurn_OBoard]
    simp only [IsEmpty, hsh, Option.bind_eq_bind, Option.some_bind, pure, Option.some.injEq,
      Bool.and_eq_true, beq_iff_eq] at hemp
    cases ht : g.XTurn
    · simp only [markCell, ht, Bool.false_eq_true, if_false]
      rw [Nat.land_comm]
      apply land_lor_eq_zero
      · rw [Nat.land_comm]; exact hd
      · rw [Nat.land_comm]; exact hemp.1
    · simp only [markCell, ht, if_true]
      apply land_lor_eq_zero hd
      rw [Nat.land_comm]; exact hemp.2

theorem MakeMove_XTurn {g g' : u3t} {board localPos : Int} {r : Bool}
    (h : MakeMove g board localPos = some (r, g')) :
    g'.XTurn = if r = true then !g.XTurn else g.XTurn := by
  rcases MakeMove_some h with ⟨hr, hg, -⟩ | ⟨hr, -, mask, f, -, -, -, hg⟩
  · subst hr; subst hg; rfl
  · subst hr; subst hg
    rw [switchTurn_XTurn]
    cases ht : g.XTurn <;> simp [markCell, ht]

theorem runMoves_cons_some {g g' : u3t} {c : Int × Int} {rest : List (Int × Int)} {n : Nat}
    (h : runMoves g (c :: rest) = some (n, g')) :
    ∃ r g1 k, MakeMove g c.1 c.2 = some (r, g1) ∧ runMoves g1 rest = some (k, g') ∧
      n = (if r = true then 1 else 0) + k := by
  obtain ⟨b, p⟩ := c
  unfold runMoves at h
  cases hm : MakeMove g b p with
  | none => simp [hm] at h
  | some v =>
    obtain ⟨r, g1⟩ := v
    cases hr : runMoves g1 rest with
    | none => simp [hm, hr] at h
    | some w =>
      obtain ⟨k, g2⟩ := w
      simp only [hm, hr, Option.bind_eq_bind, Option.some_bind, pure, Option.some.injEq,
        Prod.mk.injEq] at h
      exact ⟨r, g1, k, rfl, by rw [hr, h.2], h.1.symm⟩

theorem runMoves_keeps_disjoint :
    ∀ (calls : List (Int × Int)) (g g' : u3t) (n : Nat),
      g.XBoard &&& g.OBoard = 0 → runMoves g calls = some (n, g') →
      g'.XBoard &&& g'.OBoard = 0 := by
  intro calls
  induction calls with
  | nil =>
    intro g g' n hd h
    simp only [runMoves, Option.some.injEq, Prod.mk.injEq] at h
    rw [← h.2]; exact hd
  | cons c rest ih =>
    intro g g' n hd h
    obtain ⟨r, g1, k, hm, hr, -⟩ := runMoves_cons_some h
    exact ih g1 g' k (MakeMove_keeps_disjoint hm hd) hr

theorem runMoves_XTurn :
    ∀ (calls : List (Int × Int)) (g g' : u3t) (n : Nat),
      runMoves g calls = some (n, g') →
      g'.XTurn = if n % 2 = 0 then g.XTurn else !g.XTurn := by
  intro calls
  induction calls with
  | nil =>
    intro g g' n h
    simp only [runMoves, Option.some.injEq, Prod.mk.injEq] at h
    rw [← h.2, ← h.1]; rfl
  | cons c rest ih =>
    intro g g' n h
    obtain ⟨r, g1, k, hm, hr, hn⟩ := runMoves_cons_some h
    rw [ih g1 g' k hr, MakeMove_XTurn hm, hn]
    cases r
    · simp
    · rcases Nat.mod_two_eq_zero_or_one k with hk | hk
      · have : (1 + k) % 2 = 1 := by omega
        simp [hk, this]
      · have : (1 + k) % 2 = 0 := by omega
        simp [hk, this]

/-- C6: in every state reached from `NewGame` by any sequence of `MakeMove` calls
(whatever their arguments, successful or not), `XBoard & OBoard == 0`. -/
theorem masks_disjoint (g : u3t) (h : Reachable g) : g.XBoard &&& g.OBoard = 0 := by
  obtain ⟨calls, n, hrun⟩ := h
  exact runMoves_keeps_disjoint calls NewGame g n (by decide) hrun

/-- Witness for C6: the state after the calls `MakeMove(0,4)`, `MakeMove(0,0)` (rejected: the
active board is 4) and `MakeMove(4,0)`. -/
theorem masks_disjoint_witness :
    Reachable { XBoard := 1024, OBoard := 1073741824, ActiveBoard := 0, XTurn := true } ∧
      (1024 : Nat) &&& 1073741824 = 0 :=
  ⟨⟨[(0, 4), (0, 0), (4, 0)], 2, by decide⟩,
    masks_disjoint { XBoard := 1024, OBoard := 1073741824, ActiveBoard := 0, XTurn := true }
      ⟨[(0, 4), (0, 0), (4, 0)], 2, by decide⟩⟩

/-- C7: after any sequence of `MakeMove` calls from `NewGame` of which exactly `n`
returned `true`, `XTurn == (n % 2 == 0)`; and a call that returns `false` leaves
`XTurn` as it was. -/
theorem turn_alternation (calls : List (Int × Int)) (n : Nat) (g : u3t)
    (h : runMoves NewGame calls = some (n, g)) :
    g.XTurn = decide (n % 2 = 0) ∧
      ∀ (board localPos : Int) (g' : u3t),
        MakeMove g board localPos = some (false, g') → g'.XTurn = g.XTurn := by
  constructor
  · rw [runMoves_XTurn calls NewGame g n h]
    by_cases hn : n % 2 = 0 <;> simp [hn, NewGame]
  · intro board localPos g' hm
    simpa using MakeMove_XTurn hm

/-- Witness for C7: the calls `MakeMove(0,4)`, `MakeMove(0,0)` (rejected) and `MakeMove(4,0)`:
two of the three return `true`. -/
theorem turn_alternation_witness :
    runMoves NewGame [(0, 4), (0, 0), (4, 0)] =
        some (2, { XBoard := 1024, OBoard := 1073741824, ActiveBoard := 0, XTurn := true }) ∧
      (true = decide (2 % 2 = 0) ∧
        ∀ (board localPos : Int) (g' : u3t),
          MakeMove { XBoard := 1024, OBoard := 1073741824, ActiveBoard := 0, XTurn := true }
            board localPos = some (false, g') → g'.XTurn = true) :=
  ⟨by decide,
    turn_alternation [(0, 4), (0, 0), (4, 0)] 2
      { XBoard := 1024, OBoard := 1073741824, ActiveBoard := 0, XTurn := true } (by decide)⟩

/-! ## Coordinates -/

theorem hovered_GetGlobalPosition {b p : Int} (hb0 : 0 ≤ b) (hb : b < 9)
    (hp0 : 0 ≤ p) (hp : p < 9) :
    hoveredBoardPosition (Int.tmod (GetGlobalPosition b p) 9)
      (Int.tdiv (GetGlobalPosition b p) 9) = (b, p) := by
  interval_cases b <;> interval_cases p <;> decide

/-- C8: for every board `b` and local position `p` in `[0,9)`, the position
`pos = GetGlobalPosition(b, p)` lies in `[0,81)`; with `row = pos / 9` and
`col = pos % 9`, `GetBitPosition(row, col)` is `pos` again and the mapping of
`updateGame`, `board = (row/3)*3 + col/3`, `local = (row%3)*3 + col%3`, gives back
`(b, p)`; so `GetGlobalPosition` is injective on the 81 pairs, and every position
in `[0,81)` is the image of a pair. -/
theorem coordinate_round_trip (b p : Int) (hb0 : 0 ≤ b) (hb : b < 9)
    (hp0 : 0 ≤ p) (hp : p < 9) :
    (0 ≤ GetGlobalPosition b p ∧ GetGlobalPosition b p < 81) ∧
    GetBitPosition (Int.tdiv (GetGlobalPosition b p) 9)
      (Int.tmod (GetGlobalPosition b p) 9) = GetGlobalPosition b p ∧
    hoveredBoardPosition (Int.tmod (GetGlobalPosition b p) 9)
      (Int.tdiv (GetGlobalPosition b p) 9) = (b, p) ∧
    (∀ b' p' : Int, 0 ≤ b' → b' < 9 → 0 ≤ p' → p' < 9 →
      GetGlobalPosition b' p' = GetGlobalPosition b p → b' = b ∧ p' = p) ∧
    (∀ pos : Int, 0 ≤ pos → pos < 81 →
      ∃ b' p' : Int, (0 ≤ b' ∧ b' < 9) ∧ (0 ≤ p' ∧ p' < 9) ∧
        GetGlobalPosition b' p' = pos) := by
  refine ⟨GetGlobalPosition_bounds hb0 hb hp0 hp, ?_,
    hovered_GetGlobalPosition hb0 hb hp0 hp, ?_, ?_⟩
  · interval_cases b <;> interval_cases p <;> decide
  · intro b' p' hb0' hb' hp0' hp' heq
    have h1 := hovered_GetGlobalPosition hb0' hb' hp0' hp'
    rw [heq, hovered_GetGlobalPosition hb0 hb hp0 hp] at h1
    simp only [Prod.mk.injEq] at h1
    exact ⟨h1.1.symm, h1.2.symm⟩
  · intro pos h0 h81
    refine ⟨(hoveredBoardPosition (Int.tmod pos 9) (Int.tdiv pos 9)).1,
      (hoveredBoardPosition (Int.tmod pos 9) (Int.tdiv pos 9)).2, ?_⟩
    interval_cases pos <;> decide

/-- Witness for C8: sub-board 7, local position 5 (position 68, row 7, column 5). -/
theorem coordinate_round_trip_witness :
    (0 ≤ GetGlobalPosition 7 5 ∧ GetGlobalPosition 7 5 < 81) ∧
    GetBitPosition (Int.tdiv (GetGlobalPosition 7 5) 9)
      (Int.tmod (GetGlobalPosition 7 5) 9) = GetGlobalPosition 7 5 ∧
    hoveredBoardPosition (Int.tmod (GetGlobalPosition 7 5) 9)
      (Int.tdiv (GetGlobalPosition 7 5) 9) = (7, 5) ∧
    (∀ b' p' : Int, 0 ≤ b' → b' < 9 → 0 ≤ p' → p' < 9 →
      GetGlobalPosition b' p' = GetGlobalPosition 7 5 → b' = 7 ∧ p' = 5) ∧
    (∀ pos : Int, 0 ≤ pos → pos < 81 →
      ∃ b' p' : Int, (0 ≤ b' ∧ b' < 9) ∧ (0 ≤ p' ∧ p' < 9) ∧
        GetGlobalPosition b' p' = pos) :=
  coordinate_round_trip 7 5 (by decide) (by decide) (by decide) (by decide)

/-! ## Win detection on a sub-board -/

theorem land_two_pow_ne_zero_iff (x k : Nat) : x &&& 2 ^ k ≠ 0 ↔ x.testBit k = true := by
  constructor
  · intro h
    obtain ⟨i, hi⟩ := Nat.ne_zero_implies_bit_true h
    rw [Nat.testBit_and, Nat.testBit_two_pow] at hi
    simp only [Bool.and_eq_true, decide_eq_true_eq] at hi
    rw [hi.2]
    exact hi.1
  · intro h heq
    have h2 := congrArg (fun n => Nat.testBit n k) heq
    simp [Nat.testBit_and, h] at h2

theorem xAt_oAt_disjoint (g : u3t) (hd : g.XBoard &&& g.OBoard = 0) (b : Int) (i : Nat) :
    ¬ (xAt g b i = true ∧ oAt g b i = true) := by
  rintro ⟨hx, ho⟩
  unfold xAt at hx
  unfold oAt at ho
  unfold maskAt at hx ho
  split at hx
  · simp at hx
  · rename_i hlt
    rw [if_neg hlt] at ho
    rw [bne_iff_ne, land_two_pow_ne_zero_iff] at hx ho
    have h2 := congrArg (fun n => Nat.testBit n (GetGlobalPosition b (i : Int)).toNat) hd
    simp [Nat.testBit_and, hx, ho] at h2

theorem cellOwner_cell (g : u3t) {b : Int} (hb0 : 0 ≤ b) (hb : b < 9) {i : Nat}
    (hi : i < 9) :
    cellOwner g (GetGlobalPosition b (i : Int)) =
      some (if xAt g b i = true then 1 else if oAt g b i = true then 2 else 0) := by
  unfold cellOwner
  rw [shl1_of_nonneg (GetGlobalPosition_nonneg_nat hb0 hb hi)]
  simp only [Option.bind_eq_bind, Option.some_bind, xAt, oAt]
  split
  · rfl
  · split <;> rfl

theorem mem_bitsOf {pattern i : Nat} :
    i ∈ bitsOf pattern ↔ i < 9 ∧ pattern.testBit i = true := by
  simp [bitsOf, List.mem_filter, List.mem_range]

theorem containsPattern_small (s pattern : Nat) (hpat : pattern < 2 ^ 9) (f : Nat → Bool)
    (hs : ∀ j, s.testBit j = (decide (j < 9) && f j)) :
    containsPattern s pattern ↔ ∀ i ∈ bitsOf pattern, f i = true := by
  unfold containsPattern
  constructor
  · intro h i hi
    obtain ⟨hi9, hbit⟩ := mem_bitsOf.mp hi
    have h2 := congrArg (fun n => Nat.testBit n i) h
    simp only [Nat.testBit_and, hbit, Bool.and_true, hs i, hi9, decide_True,
      Bool.true_and] at h2
    exact h2
  · intro h
    apply Nat.eq_of_testBit_eq
    intro i
    rw [Nat.testBit_and]
    cases hbit : pattern.testBit i with
    | false => simp
    | true =>
      have hi9 : i < 9 := by
        by_contra hge
        have hlt : pattern < 2 ^ i :=
          lt_of_lt_of_le hpat (Nat.pow_le_pow_right (by decide) (not_lt.mp hge))
        rw [Nat.testBit_lt_two_pow hlt] at hbit
        exact Bool.false_ne_true hbit
      rw [hs i, h i (mem_bitsOf.mpr ⟨hi9, hbit⟩)]
      simp [hi9]

theorem winPatterns_lines : winPatterns.map bitsOf = ticTacToeLines := by decide

theorem winPatterns_small : ∀ pattern ∈ winPatterns, pattern < 2 ^ 9 := by decide

theorem exists_line_iff (Q : List Nat → Prop) :
    (∃ pattern ∈ winPatterns, Q (bitsOf pattern)) ↔ ∃ line ∈ ticTacToeLines, Q line := by
  rw [← winPatterns_lines]
  constructor
  · rintro ⟨q, hq, hQ⟩
    exact ⟨bitsOf q, List.mem_map.mpr ⟨q, hq, rfl⟩, hQ⟩
  · rintro ⟨line, hl, hQ⟩
    obtain ⟨q, hq, rfl⟩ := List.mem_map.mp hl
    exact ⟨q, hq, hQ⟩

theorem hasLine_small (s : Nat) (f : Nat → Bool)
    (hs : ∀ j, s.testBit j = (decide (j < 9) && f j)) :
    hasLine s ↔ ∃ line ∈ ticTacToeLines, ∀ i ∈ line, f i = true := by
  rw [← exists_line_iff (fun line => ∀ i ∈ line, f i = true)]
  unfold hasLine
  constructor
  · rintro ⟨q, hq, hc⟩
    exact ⟨q, hq, (containsPattern_small s q (winPatterns_small q hq) f hs).mp hc⟩
  · rintro ⟨q, hq, hc⟩
    exact ⟨q, hq, (containsPattern_small s q (winPatterns_small q hq) f hs).mpr hc⟩

theorem anyPattern_iff_hasLine (x o : Nat) :
    anyPattern x o winPatterns = true ↔ hasLine x ∨ hasLine o := by
  rw [anyPattern_iff]
  unfold hasLine
  constructor
  · rintro ⟨q, hq, hc | hc⟩
    · exact Or.inl ⟨q, hq, hc⟩
    · exact Or.inr ⟨q, hq, hc⟩
  · rintro (⟨q, hq, hc⟩ | ⟨q, hq, hc⟩)
    · exact ⟨q, hq, Or.inl hc⟩
    · exact ⟨q, hq, Or.inr hc⟩

theorem IsBoardWon_iff_bits (g : u3t) {b : Int} (hb0 : 0 ≤ b) (hb : b < 9) :
    IsBoardWon g b = some true ↔
      (∃ line ∈ ticTacToeLines, ∀ i ∈ line, xAt g b i = true) ∨
      (∃ line ∈ ticTacToeLines, ∀ i ∈ line, (!xAt g b i && oAt g b i) = true) := by
  obtain ⟨x, o, -, hx, ho, hw, -⟩ := boardQueries_spec g hb0 hb
  rw [hw, Option.some.injEq, anyPattern_iff_hasLine,
    hasLine_small x (fun i => xAt g b i) hx,
    hasLine_small o (fun i => !xAt g b i && oAt g b i) ho]

theorem ticTacToeLines_lt : ∀ line ∈ ticTacToeLines, ∀ i ∈ line, i < 9 := by decide

theorem cellOwner_eq_one_iff (g : u3t) {b : Int} (hb0 : 0 ≤ b) (hb : b < 9) {i : Nat}
    (hi : i < 9) :
    cellOwner g (GetGlobalPosition b (i : Int)) = some 1 ↔ xAt g b i = true := by
  rw [cellOwner_cell g hb0 hb hi]
  cases xAt g b i <;> cases oAt g b i <;> simp

theorem cellOwner_eq_two_iff (g : u3t) {b : Int} (hb0 : 0 ≤ b) (hb : b < 9) {i : Nat}
    (hi : i < 9) :
    cellOwner g (GetGlobalPosition b (i : Int)) = some 2 ↔
      (!xAt g b i && oAt g b i) = true := by
  rw [cellOwner_cell g hb0 hb hi]
  cases xAt g b i <;> cases oAt g b i <;> simp

theorem top_row_X_wins (g : u3t) {b : Int} (hb0 : 0 ≤ b) (hb : b < 9)
    (h : ∀ i ∈ [0, 1, 2], xAt g b i = true) :
    IsBoardWon g b = some true ∧ GetBoardWinner g b = some 1 := by
  obtain ⟨x, o, -, hx, -, hw, hgw⟩ := boardQueries_spec g hb0 hb
  have hb7 : bitsOf 0x7 = [0, 1, 2] := by decide
  have hc : containsPattern x 0x7 :=
    (containsPattern_small x 0x7 (by decide) (fun i => xAt g b i) hx).mpr
      (by rw [hb7]; exact h)
  unfold containsPattern at hc
  rw [hw, hgw]
  constructor
  · simp [winPatterns, anyPattern, hc]
  · simp [winPatterns, patternWinner, hc]

/-- C9: for every state and every board `b` in `[0,9)`, `IsBoardWon(b)` returns, and
it returns `true` iff one player holds the three cells of one of the eight lines
of `b` (rows, columns, diagonals); a cell is held by X when its X bit is set and by
O when its O bit is set and its X bit is clear, as `PrintBoard` shows it, which on
disjoint masks is the same as the bit of the player being set. The eight
`winPatterns` are exactly these eight lines, each one three bits below bit 9. When
X holds the local cells 0, 1, 2 of sub-board 3, `IsBoardWon(3)` is `true` and
`GetBoardWinner(3)` is `1`. -/
theorem IsBoardWon_iff_line (g : u3t) (b : Int) (hb0 : 0 ≤ b) (hb : b < 9) :
    (IsBoardWon g b = some true ∨ IsBoardWon g b = some false) ∧
    (IsBoardWon g b = some true ↔
      ∃ line ∈ ticTacToeLines,
        (∀ i ∈ line, cellOwner g (GetGlobalPosition b (i : Int)) = some 1) ∨
        (∀ i ∈ line, cellOwner g (GetGlobalPosition b (i : Int)) = some 2)) ∧
    (g.XBoard &&& g.OBoard = 0 →
      (IsBoardWon g b = some true ↔
        ∃ line ∈ ticTacToeLines,
          (∀ i ∈ line, xAt g b i = true) ∨ (∀ i ∈ line, oAt g b i = true))) ∧
    winPatterns.map bitsOf = ticTacToeLines ∧
    (∀ pattern ∈ winPatterns, pattern < 2 ^ 9 ∧ (bitsOf pattern).length = 3) ∧
    (∀ g3 : u3t,
      (∀ i ∈ [0, 1, 2], cellOwner g3 (GetGlobalPosition 3 ((i : Nat) : Int)) = some 1) →
      IsBoardWon g3 3 = some true ∧ GetBoardWinner g3 3 = some 1) := by
  refine ⟨?_, ?_, ?_, winPatterns_lines, by decide, ?_⟩
  · obtain ⟨x, o, -, -, -, hw, -⟩ := boardQueries_spec g hb0 hb
    rw [hw]
    cases anyPattern x o winPatterns <;> simp
  · rw [IsBoardWon_iff_bits g hb0 hb]
    constructor
    · rintro (⟨line, hl, h⟩ | ⟨line, hl, h⟩)
      · exact ⟨line, hl, Or.inl fun i hi =>
          (cellOwner_eq_one_iff g hb0 hb (ticTacToeLines_lt line hl i hi)).mpr (h i hi)⟩
      · exact ⟨line, hl, Or.inr fun i hi =>
          (cellOwner_eq_two_iff g hb0 hb (ticTacToeLines_lt line hl i hi)).mpr (h i hi)⟩
    · rintro ⟨line, hl, h | h⟩
      · exact Or.inl ⟨line, hl, fun i hi =>
          (cellOwner_eq_one_iff g hb0 hb (ticTacToeLines_lt line hl i hi)).mp (h i hi)⟩
      · exact Or.inr ⟨line, hl, fun i hi =>
          (cellOwner_eq_two_iff g hb0 hb (ticTacToeLines_lt line hl i hi)).mp (h i hi)⟩
  · intro hd
    rw [IsBoardWon_iff_bits g hb0 hb]
    constructor
    · rintro (⟨line, hl, h⟩ | ⟨line, hl, h⟩)
      · exact ⟨line, hl, Or.inl h⟩
      · refine ⟨line, hl, Or.inr fun i hi => ?_⟩
        have h2 := h i hi
        simp only [Bool.and_eq_true] at h2
        exact h2.2
    · rintro ⟨line, hl, h | h⟩
      · exact Or.inl ⟨line, hl, h⟩
      · refine Or.inr ⟨line, hl, fun i hi => ?_⟩
        have ho := h i hi
        have hx : xAt g b i = false := by
          cases hxx : xAt g b i with
          | false => rfl
          | true => exact absurd ⟨hxx, ho⟩ (xAt_oAt_disjoint g hd b i)
        simp [hx, ho]
  · intro g3 h
    apply top_row_X_wins g3 (by decide) (by decide)
    intro i hi
    have hi9 : i < 9 := by
      simp only [List.mem_cons, List.mem_singleton, List.not_mem_nil, or_false] at hi
      omega
    exact (cellOwner_eq_one_iff g3 (by decide) (by decide) hi9).mp (h i hi)

/-- Witness for C9: sub-board 3 of the state in which X holds the positions 27, 28, 29 (the
local cells 0, 1, 2 of sub-board 3) and O holds nothing. -/
theorem IsBoardWon_iff_line_witness :
    IsBoardWon { XBoard := 939524096, OBoard := 0, ActiveBoard := -1, XTurn := true } 3 =
      some true ∧
    GetBoardWinner { XBoard := 939524096, OBoard := 0, ActiveBoard := -1, XTurn := true } 3 =
      some 1 ∧
    (IsBoardWon { XBoard := 939524096, OBoard := 0, ActiveBoard := -1, XTurn := true } 3 =
        some true ↔
      ∃ line ∈ ticTacToeLines,
        (∀ i ∈ line,
          cellOwner { XBoard := 939524096, OBoard := 0, ActiveBoard := -1, XTurn := true }
            (GetGlobalPosition 3 (i : Int)) = some 1) ∨
        (∀ i ∈ line,
          cellOwner { XBoard := 939524096, OBoard := 0, ActiveBoard := -1, XTurn := true }
            (GetGlobalPosition 3 (i : Int)) = some 2)) :=
  ⟨by decide, by decide,
    (IsBoardWon_iff_line
      { XBoard := 939524096, OBoard := 0, ActiveBoard := -1, XTurn := true } 3
      (by decide) (by decide)).2.1⟩

/-! ## Win detection on the whole game -/

theorem GetBoardWinner_total (g : u3t) {b : Int} (hb0 : 0 ≤ b) (hb : b < 9) :
    ∃ w, GetBoardWinner g b = some w ∧ (w = 0 ∨ w = 1 ∨ w = 2) := by
  obtain ⟨x, o, -, -, -, -, hgw⟩ := boardQueries_spec g hb0 hb
  exact ⟨_, hgw, patternWinner_range x o winPatterns⟩

theorem metaBoardsLoop_spec (g : u3t) :
    ∀ (l : List Nat) (x0 o0 : Nat), (∀ i ∈ l, i < 9) →
      ∃ x o, metaBoardsLoop g l (x0, o0) = some (x, o) ∧
        (∀ j, x.testBit j = (x0.testBit j ||
          (decide (j ∈ l) && decide (GetBoardWinner g (j : Int) = some 1)))) ∧
        (∀ j, o.testBit j = (o0.testBit j ||
          (decide (j ∈ l) && decide (GetBoardWinner g (j : Int) = some 2)))) := by
  intro l
  induction l with
  | nil => intro x0 o0 _; exact ⟨x0, o0, rfl, by simp, by simp⟩
  | cons i rest ih =>
    intro x0 o0 h
    have hi : i < 9 := h i (List.mem_cons_self _ _)
    have hrest : ∀ j ∈ rest, j < 9 := fun j hj => h j (List.mem_cons_of_mem _ hj)
    obtain ⟨w, hw, hrange⟩ :=
      GetBoardWinner_total g (Int.natCast_nonneg i) (by exact_mod_cast hi : (i : Int) < 9)
    rcases hrange with h0 | h1 | h2
    · subst h0
      obtain ⟨x, o, hrun, hxs, hos⟩ := ih x0 o0 hrest
      refine ⟨x, o, ?_, ?_, ?_⟩
      · simp [metaBoardsLoop, hw, hrun]
      · intro j
        rw [hxs j]
        by_cases hji : j = i
        · subst hji; simp [hw]
        · simp [hji]
      · intro j
        rw [hos j]
        by_cases hji : j = i
        · subst hji; simp [hw]
        · simp [hji]
    · subst h1
      obtain ⟨x, o, hrun, hxs, hos⟩ := ih (x0 ||| 2 ^ i) o0 hrest
      refine ⟨x, o, ?_, ?_, ?_⟩
      · simp [metaBoardsLoop, hw, hrun]
      · intro j
        rw [hxs j, Nat.testBit_or, Nat.testBit_two_pow]
        by_cases hji : j = i
        · subst hji; simp [hw]
        · have hij : ¬ i = j := fun e => hji e.symm
          simp [hji, hij]
      · intro j
        rw [hos j]
        by_cases hji : j = i
        · subst hji; simp [hw]
        · simp [hji]
    · subst h2
      obtain ⟨x, o, hrun, hxs, hos⟩ := ih x0 (o0 ||| 2 ^ i) hrest
      refine ⟨x, o, ?_, ?_, ?_⟩
      · simp [metaBoardsLoop, hw, hrun]
      · intro j
        rw [hxs j]
        by_cases hji : j = i
        · subst hji; simp [hw]
        · simp [hji]
      · intro j
        rw [hos j, Nat.testBit_or, Nat.testBit_two_pow]
        by_cases hji : j = i
        · subst hji; simp [hw]
        · have hij : ¬ i = j := fun e => hji e.symm
          simp [hji, hij]

theorem metaBoards_spec (g : u3t) :
    ∃ x o, metaBoards g = some (x, o) ∧
      (∀ j, x.testBit j =
        (decide (j < 9) && decide (GetBoardWinner g (j : Int) = some 1))) ∧
      (∀ j, o.testBit j =
        (decide (j < 9) && decide (GetBoardWinner g (j : Int) = some 2))) := by
  obtain ⟨x, o, hrun, hxs, hos⟩ :=
    metaBoardsLoop_spec g (List.range 9) 0 0 (fun _ hi => List.mem_range.mp hi)
  refine ⟨x, o, hrun, ?_, ?_⟩
  · intro j; rw [hxs j]; simp [List.mem_range]
  · intro j; rw [hos j]; simp [List.mem_range]

theorem ticTacToeLines_meet_diagonal :
    ∀ line ∈ ticTacToeLines, 0 ∈ line ∨ 4 ∈ line ∨ 8 ∈ line := by decide

theorem ticTacToeLines_head : ∀ line ∈ ticTacToeLines, line.head? ≠ none := by decide

theorem metaLine_iff (g : u3t) (s : Nat) (v : Int)
    (hs : ∀ j, s.testBit j =
      (decide (j < 9) && decide (GetBoardWinner g (j : Int) = some v))) :
    hasLine s ↔
      ∃ line ∈ ticTacToeLines, ∀ b ∈ line, GetBoardWinner g ((b : Nat) : Int) = some v := by
  rw [hasLine_small s (fun j => decide (GetBoardWinner g (j : Int) = some v)) hs]
  simp only [decide_eq_true_eq]

/-- C10: for every state, `IsGameWon()` and `GetGameWinner()` return; `IsGameWon()`
is `true` iff there is a line of the eight whose three sub-boards have the same
non-zero `GetBoardWinner`; when it is `true`, `GetGameWinner()` is non-zero and is
the `GetBoardWinner` of the three sub-boards of such a line, and when it is `false`,
`GetGameWinner()` is `0`. When `GetBoardWinner` is `1` on the sub-boards 0, 4 and 8,
`GetGameWinner()` is `1` and `IsGameWon()` is `true`. -/
theorem IsGameWon_iff_line (g : u3t) :
    ∃ won w, IsGameWon g = some won ∧ GetGameWinner g = some w ∧
      (won = true ↔
        ∃ line ∈ ticTacToeLines, ∃ v : Int, v ≠ 0 ∧
          ∀ b ∈ line, GetBoardWinner g ((b : Nat) : Int) = some v) ∧
      (won = true →
        ∃ line ∈ ticTacToeLines, w ≠ 0 ∧
          ∀ b ∈ line, GetBoardWinner g ((b : Nat) : Int) = some w) ∧
      (won = false → w = 0) ∧
      (GetBoardWinner g 0 = some 1 → GetBoardWinner g 4 = some 1 →
        GetBoardWinner g 8 = some 1 → w = 1 ∧ won = true) := by
  obtain ⟨x, o, hm, hx, ho⟩ := metaBoards_spec g
  have hX := metaLine_iff g x 1 hx
  have hO := metaLine_iff g o 2 ho
  have hany := anyPattern_iff_hasLine x o
  have hne := anyPattern_eq_patternWinner x o winPatterns
  have hrange := patternWinner_range x o winPatterns
  refine ⟨anyPattern x o winPatterns, patternWinner x o winPatterns, ?_, ?_, ?_, ?_, ?_, ?_⟩
  · simp [IsGameWon, hm]
  · simp [GetGameWinner, hm]
  · rw [hany]
    constructor
    · rintro (h | h)
      · obtain ⟨line, hl, hall⟩ := hX.mp h
        exact ⟨line, hl, 1, by decide, hall⟩
      · obtain ⟨line, hl, hall⟩ := hO.mp h
        exact ⟨line, hl, 2, by decide, hall⟩
    · rintro ⟨line, hl, v, hv, hall⟩
      have hhead := ticTacToeLines_head line hl
      cases hline : line with
      | nil => rw [hline] at hhead; exact absurd rfl hhead
      | cons i rest =>
        have hmem : i ∈ line := by rw [hline]; exact List.mem_cons_self _ _
        have hi9 := ticTacToeLines_lt line hl i hmem
        obtain ⟨w, hw, hwr⟩ :=
          GetBoardWinner_total g (Int.natCast_nonneg i) (by exact_mod_cast hi9 : (i : Int) < 9)
        have hvw : v = w := by
          have h1 := hall i hmem
          rw [hw] at h1
          exact (Option.some.inj h1).symm
        subst hvw
        rcases hwr with h0 | h1 | h2
        · exact absurd h0 hv
        · subst h1; exact Or.inl (hX.mpr ⟨line, hl, hall⟩)
        · subst h2; exact Or.inr (hO.mpr ⟨line, hl, hall⟩)
  · intro hwon
    have hw0 := hne.mp hwon
    rcases hrange with h0 | h1 | h2
    · exact absurd h0 hw0
    · obtain ⟨line, hl, hall⟩ :=
        hX.mp (patternWinner_eq_one x o winPatterns h1)
      exact ⟨line, hl, hw0, by rw [h1]; exact hall⟩
    · obtain ⟨line, hl, hall⟩ :=
        hO.mp (patternWinner_eq_two x o winPatterns h2)
      exact ⟨line, hl, hw0, by rw [h2]; exact hall⟩
  · intro hwon
    by_contra hw0
    have := hne.mpr hw0
    rw [hwon] at this
    exact Bool.false_ne_true this
  · intro h0 h4 h8
    have hxl : hasLine x := by
      refine hX.mpr ⟨[0, 4, 8], by decide, ?_⟩
      intro b hb
      simp only [List.mem_cons, List.mem_singleton, List.not_mem_nil, or_false] at hb
      rcases hb with rfl | rfl | rfl
      · simpa using h0
      · simpa using h4
      · simpa using h8
    have hol : ¬ hasLine o := by
      intro hc
      obtain ⟨line, hl, hall⟩ := hO.mp hc
      rcases ticTacToeLines_meet_diagonal line hl with hm0 | hm4 | hm8
      · have h := hall 0 hm0
        simp only [Nat.cast_ofNat, Nat.cast_zero] at h
        rw [h0] at h
        exact absurd (Option.some.inj h) (by decide)
      · have h := hall 4 hm4
        simp only [Nat.cast_ofNat] at h
        rw [h4] at h
        exact absurd (Option.some.inj h) (by decide)
      · have h := hall 8 hm8
        simp only [Nat.cast_ofNat] at h
        rw [h8] at h
        exact absurd (Option.some.inj h) (by decide)
    have hwon : anyPattern x o winPatterns = true := hany.mpr (Or.inl hxl)
    refine ⟨?_, hwon⟩
    rcases hrange with h0' | h1 | h2
    · exact absurd h0' (hne.mp hwon)
    · exact h1
    · exact absurd (patternWinner_eq_two x o winPatterns h2) hol

/-- Witness for C10: the state in which X holds the top rows of the sub-boards 0, 4
and 8 (positions 0, 1, 2, then 30, 31, 32, then 60, 61, 62) and O holds nothing. -/
theorem IsGameWon_iff_line_witness :
    GetBoardWinner
        { XBoard := 8070450539764121607, OBoard := 0, ActiveBoard := -1, XTurn := false } 0 =
      some 1 ∧
    GetBoardWinner
        { XBoard := 8070450539764121607, OBoard := 0, ActiveBoard := -1, XTurn := false } 4 =
      some 1 ∧
    GetBoardWinner
        { XBoard := 8070450539764121607, OBoard := 0, ActiveBoard := -1, XTurn := false } 8 =
      some 1 ∧
    IsGameWon
        { XBoard := 8070450539764121607, OBoard := 0, ActiveBoard := -1, XTurn := false } =
      some true ∧
    GetGameWinner
        { XBoard := 8070450539764121607, OBoard := 0, ActiveBoard := -1, XTurn := false } =
      some 1 ∧
    ∃ won w,
      IsGameWon
          { XBoard := 8070450539764121607, OBoard := 0, ActiveBoard := -1, XTurn := false } =
        some won ∧
      GetGameWinner
          { XBoard := 8070450539764121607, OBoard := 0, ActiveBoard := -1, XTurn := false } =
        some w ∧ w = 1 ∧ won = true := by
  refine ⟨by decide, by decide, by decide, by decide, by decide, ?_⟩
  obtain ⟨won, w, h1, h2, -, -, -, h3⟩ :=
    IsGameWon_iff_line
      { XBoard := 8070450539764121607, OBoard := 0, ActiveBoard := -1, XTurn := false }
  exact ⟨won, w, h1, h2, h3 (by decide) (by decide) (by decide)⟩

/-! ## Calls with arguments outside `[0,9)` -/

/-- C11 (the claim as stated fails): from `NewGame`, the call `MakeMove(0, 9)` has
`localPos` outside `[0,9)`; it addresses position `GetGlobalPosition(0, 9) = 27`
(local cell 0 of sub-board 3), does not panic, returns `true` and has set bit 27
of `XBoard`; it leaves `ActiveBoard = 9`. -/
theorem MakeMove_out_of_range_sets_bit :
    GetGlobalPosition 0 9 = 27 ∧
    MakeMove NewGame 0 9 =
      some (true, { XBoard := 134217728, OBoard := 0, ActiveBoard := 9, XTurn := false }) ∧
    (134217728 : Nat) ≠ NewGame.XBoard := by
  decide

/-- C11 (amended): for every state and every call `MakeMove(board, localPos)`,
whatever the integers `board` and `localPos` (in particular outside `[0,9)`), the
call either panics, or returns `false` and leaves the state unchanged, or returns
`true` having or-ed the one mask `uint64(1) << GetGlobalPosition(board, localPos)`
into the mask of the player to move, on a cell whose bit was clear in both masks,
and leaving the other mask unchanged. -/
theorem MakeMove_any_arguments (g : u3t) (board localPos : Int) :
    MakeMove g board localPos = none ∨
    MakeMove g board localPos = some (false, g) ∨
    ∃ mask g', MakeMove g board localPos = some (true, g') ∧
      shl1 (GetGlobalPosition board localPos) = some mask ∧
      g.XBoard &&& mask = 0 ∧ g.OBoard &&& mask = 0 ∧
      g'.XBoard = (if g.XTurn = true then g.XBoard ||| mask else g.XBoard) ∧
      g'.OBoard = (if g.XTurn = true then g.OBoard else g.OBoard ||| mask) := by
  cases hm : MakeMove g board localPos with
  | none => exact Or.inl rfl
  | some v =>
    obtain ⟨r, g'⟩ := v
    right
    rcases MakeMove_some hm with ⟨hr, hg, -⟩ | ⟨hr, -, mask, f, hsh, hemp, -, hg⟩
    · left; rw [hr, hg]
    · right
      subst hr
      refine ⟨mask, g', rfl, hsh, ?_⟩
      simp only [IsEmpty, hsh, Option.bind_eq_bind, Option.some_bind, pure,
        Option.some.injEq, Bool.and_eq_true, beq_iff_eq] at hemp
      refine ⟨hemp.1, hemp.2, ?_, ?_⟩
      · rw [hg, switchTurn_XBoard]
        cases ht : g.XTurn <;> simp [markCell, ht]
      · rw [hg, switchTurn_OBoard]
        cases ht : g.XTurn <;> simp [markCell, ht]

/-! ## The move check of the user interface -/

/-- C18: for every state and every hovered board and position in `[0,9)`, the flag
`validMove` that `updateGame` computes and the result of `MakeMove` on the same
state and arguments are both defined and equal. -/
theorem validMove_agrees_with_MakeMove (g : u3t) (board position : Int)
    (hb0 : 0 ≤ board) (hb : board < 9) (hp0 : 0 ≤ position) (hp : position < 9) :
    ∃ v r g', validMove g board position = some v ∧
      MakeMove g board position = some (r, g') ∧ (v = true ↔ r = true) := by
  have hpos := (GetGlobalPosition_bounds hb0 hb hp0 hp).1
  have hemp := IsEmpty_of_nonneg g hpos
  obtain ⟨f, -, heq⟩ := MakeMove_inRange g hb0 hb hp0 hp
  generalize hE : ((g.XBoard &&& maskAt (GetGlobalPosition board position)) == 0 &&
    (g.OBoard &&& maskAt (GetGlobalPosition board position)) == 0) = e at hemp
  by_cases hblk : g.ActiveBoard ≠ -1 ∧ g.ActiveBoard ≠ board
  · rw [if_pos (Or.inl hblk)] at heq
    refine ⟨false, false, g, ?_, heq, Iff.rfl⟩
    unfold validMove
    simp [hblk.1, hblk.2]
  · have hact : g.ActiveBoard = -1 ∨ g.ActiveBoard = board := by
      by_contra hc
      push_neg at hc
      exact hblk hc
    have hcond : (g.ActiveBoard == -1 || g.ActiveBoard == board) = true := by
      simpa using hact
    cases e with
    | false =>
      rw [if_pos (Or.inr hemp)] at heq
      refine ⟨false, false, g, ?_, heq, Iff.rfl⟩
      unfold validMove
      simp [hcond, hemp]
    | true =>
      have hn : ¬ ((g.ActiveBoard ≠ -1 ∧ g.ActiveBoard ≠ board) ∨
          IsEmpty g (GetGlobalPosition board position) = some false) := by
        rw [hemp]
        rintro (h | h)
        · exact hblk h
        · exact absurd (Option.some.inj h) (by decide)
      rw [if_neg hn] at heq
      refine ⟨true, true, _, ?_, heq, Iff.rfl⟩
      unfold validMove
      simp [hcond, hemp]

/-- Witness for C18: the hovered cell (board 4, position 0) after `MakeMove(0,4)` from
`NewGame`. -/
theorem validMove_agrees_with_MakeMove_witness :
    ∃ v r g',
      validMove { XBoard := 1024, OBoard := 0, ActiveBoard := 4, XTurn := false } 4 0 =
        some v ∧
      MakeMove { XBoard := 1024, OBoard := 0, ActiveBoard := 4, XTurn := false } 4 0 =
        some (r, g') ∧ (v = true ↔ r = true) :=
  validMove_agrees_with_MakeMove
    { XBoard := 1024, OBoard := 0, ActiveBoard := 4, XTurn := false } 4 0
    (by decide) (by decide) (by decide) (by decide)

/-! ## Draws and the positions beyond bit 63 -/

theorem maskAt_of_ge_64 {n : Int} (h : 64 ≤ n) : maskAt n = 0 := by
  unfold maskAt
  rw [if_pos h]

theorem IsEmpty_of_ge_64 (g : u3t) {n : Int} (h : 64 ≤ n) : IsEmpty g n = some true := by
  rw [IsEmpty_of_nonneg g (le_trans (by decide) h), maskAt_of_ge_64 h]
  simp

theorem IsGameDrawLoop_eq (g : u3t) :
    ∀ l : List Nat,
      IsGameDrawLoop g l = some (l.all fun i => IsEmpty g (i : Int) == some false) := by
  intro l
  induction l with
  | nil => rfl
  | cons i rest ih =>
    have hi := IsEmpty_of_nonneg g (Int.natCast_nonneg i)
    generalize ((g.XBoard &&& maskAt (i : Int)) == 0 &&
      (g.OBoard &&& maskAt (i : Int)) == 0) = e at hi
    simp only [IsGameDrawLoop, hi, ih, List.all_cons, Option.bind_eq_bind, Option.some_bind]
    cases e <;> simp

theorem gameQueries_spec (g : u3t) :
    ∃ x o, metaBoards g = some (x, o) ∧
      IsGameWon g = some (anyPattern x o winPatterns) ∧
      GetGameWinner g = some (patternWinner x o winPatterns) := by
  obtain ⟨x, o, hm, -, -⟩ := metaBoards_spec g
  exact ⟨x, o, hm, by simp [IsGameWon, hm], by simp [GetGameWinner, hm]⟩

theorem IsGameDraw_eq (g : u3t) {won : Bool} (hw : IsGameWon g = some won) :
    IsGameDraw g =
      some (((List.range 81).all fun i => IsEmpty g (i : Int) == some false) && !won) := by
  unfold IsGameDraw
  rw [IsGameDrawLoop_eq, hw]
  cases ((List.range 81).all fun i => IsEmpty g (i : Int) == some false) <;> simp

theorem not_all_cells_filled (g : u3t) :
    ((List.range 81).all fun i => IsEmpty g (i : Int) == some false) = false := by
  rw [List.all_eq_false]
  refine ⟨64, by decide, ?_⟩
  rw [IsEmpty_of_ge_64 g (by decide : (64 : Int) ≤ ((64 : Nat) : Int))]
  decide

theorem IsBoardFull_false_of_cell (g : u3t) {b : Int} (hb0 : 0 ≤ b) (hb : b < 9) {i : Nat}
    (hi : i < 9) (h64 : 64 ≤ GetGlobalPosition b (i : Int)) :
    IsBoardFull g b = some false := by
  rw [IsBoardFull_eq g hb0 hb, Option.some.injEq, List.all_eq_false]
  refine ⟨i, List.mem_range.mpr hi, ?_⟩
  simp [xAt, oAt, maskAt_of_ge_64 h64]

/-- C15: for every state and every position `p` from 64 on (so every `p` in `[64,81)`),
the mask `uint64(1) << p` is `0` and `IsEmpty(p)` returns `true`; `IsGameDraw()`
returns `false` in every state, and `IsBoardFull(b)` returns `false` for `b` in
`{6,7,8}`. -/
theorem positions_beyond_bit_63 (g : u3t) (p : Int) (h64 : 64 ≤ p) :
    shl1 p = some 0 ∧ IsEmpty g p = some true ∧ IsGameDraw g = some false ∧
      IsBoardFull g 6 = some false ∧ IsBoardFull g 7 = some false ∧
      IsBoardFull g 8 = some false := by
  refine ⟨?_, IsEmpty_of_ge_64 g h64, ?_, ?_, ?_, ?_⟩
  · rw [shl1_of_nonneg (le_trans (by decide) h64), maskAt_of_ge_64 h64]
  · obtain ⟨x, o, -, hw, -⟩ := gameQueries_spec g
    rw [IsGameDraw_eq g hw, not_all_cells_filled]
    rfl
  · exact IsBoardFull_false_of_cell g (by decide) (by decide) (by decide : 4 < 9) (by decide)
  · exact IsBoardFull_false_of_cell g (by decide) (by decide) (by decide : 4 < 9) (by decide)
  · exact IsBoardFull_false_of_cell g (by decide) (by decide) (by decide : 4 < 9) (by decide)

/-- Witness for C15: position 80 in the state after `MakeMove(0,4)` from `NewGame`. -/
theorem positions_beyond_bit_63_witness :
    shl1 80 = some 0 ∧
      IsEmpty { XBoard := 1024, OBoard := 0, ActiveBoard := 4, XTurn := false } 80 =
        some true ∧
      IsGameDraw { XBoard := 1024, OBoard := 0, ActiveBoard := 4, XTurn := false } =
        some false ∧
      IsBoardFull { XBoard := 1024, OBoard := 0, ActiveBoard := 4, XTurn := false } 6 =
        some false ∧
      IsBoardFull { XBoard := 1024, OBoard := 0, ActiveBoard := 4, XTurn := false } 7 =
        some false ∧
      IsBoardFull { XBoard := 1024, OBoard := 0, ActiveBoard := 4, XTurn := false } 8 =
        some false :=
  positions_beyond_bit_63
    { XBoard := 1024, OBoard := 0, ActiveBoard := 4, XTurn := false } 80 (by decide)

/-- C13 (defect of the code): `IsGameDraw()` never reports a draw. In the state with
`XBoard = 0xAAAAAAAAAAAAAAAA` and `OBoard = 0x5555555555555555` the two masks are
disjoint, every position `0..63`, that is every cell a `uint64` mask can record, is
occupied (`IsEmpty` is `false`), and `IsGameWon()` is `false`; still `IsGameDraw()`
returns `false`, because `IsEmpty(64)` is `true`: the positions `64..80` that the
loop over `range 81` visits are empty in every state. -/
theorem IsGameDraw_false_on_filled_masks :
    (12297829382473034410 : Nat) &&& 6148914691236517205 = 0 ∧
    (∀ p : Nat, p < 64 →
      IsEmpty
          { XBoard := 12297829382473034410, OBoard := 6148914691236517205,
            ActiveBoard := -1, XTurn := true } (p : Int) = some false) ∧
    IsEmpty
        { XBoard := 12297829382473034410, OBoard := 6148914691236517205,
          ActiveBoard := -1, XTurn := true } 64 = some true ∧
    IsGameWon
        { XBoard := 12297829382473034410, OBoard := 6148914691236517205,
          ActiveBoard := -1, XTurn := true } = some false ∧
    IsGameDraw
        { XBoard := 12297829382473034410, OBoard := 6148914691236517205,
          ActiveBoard := -1, XTurn := true } = some false := by
  refine ⟨by decide, by decide, by decide, by decide, by decide⟩

/-! ## Agreement of the boolean and the winner-valued queries -/

/-- C14: for every state and every board `b` in `[0,9)`, `IsBoardWon(b)` and
`GetBoardWinner(b)` return, `IsBoardWon(b)` is `true` iff `GetBoardWinner(b)` is not
`0`, and when `IsBoardWon(b)` is `true` one of the `winPatterns` is contained in the
pattern of X or of O, so the loop of `GetBoardWinner` returns `1` or `2` before its
final `return 0`; `IsGameWon()` is `true` iff `GetGameWinner()` is not `0`; all
winner values are `0`, `1` or `2`. -/
theorem queries_agree (g : u3t) (b : Int) (hb0 : 0 ≤ b) (hb : b < 9) :
    ∃ won w gameWon gameWinner x o,
      IsBoardWon g b = some won ∧ GetBoardWinner g b = some w ∧
      IsGameWon g = some gameWon ∧ GetGameWinner g = some gameWinner ∧
      smallBoards g b = some (x, o) ∧
      (won = true ↔ w ≠ 0) ∧
      (won = true →
        w = patternWinner x o winPatterns ∧
          ∃ q ∈ winPatterns, containsPattern x q ∨ containsPattern o q) ∧
      (gameWon = true ↔ gameWinner ≠ 0) ∧
      (w = 0 ∨ w = 1 ∨ w = 2) ∧
      (gameWinner = 0 ∨ gameWinner = 1 ∨ gameWinner = 2) := by
  obtain ⟨x, o, hs, -, -, hw, hgw⟩ := boardQueries_spec g hb0 hb
  obtain ⟨mx, mo, -, hgwon, hgwin⟩ := gameQueries_spec g
  exact ⟨_, _, _, _, x, o, hw, hgw, hgwon, hgwin, hs,
    anyPattern_eq_patternWinner x o winPatterns,
    fun h => ⟨rfl, (anyPattern_iff x o winPatterns).mp h⟩,
    anyPattern_eq_patternWinner mx mo winPatterns,
    patternWinner_range x o winPatterns, patternWinner_range mx mo winPatterns⟩

/-- Witness for C14: sub-board 1 of the state in which X holds its middle row and O
its top row. -/
theorem queries_agree_witness :
    ∃ won w gameWon gameWinner x o,
      IsBoardWon
          { XBoard := 268595330, OBoard := 120259084344, ActiveBoard := 4, XTurn := false }
          1 = some won ∧
      GetBoardWinner
          { XBoard := 268595330, OBoard := 120259084344, ActiveBoard := 4, XTurn := false }
          1 = some w ∧
      IsGameWon
          { XBoard := 268595330, OBoard := 120259084344, ActiveBoard := 4, XTurn := false }
          = some gameWon ∧
      GetGameWinner
          { XBoard := 268595330, OBoard := 120259084344, ActiveBoard := 4, XTurn := false }
          = some gameWinner ∧
      smallBoards
          { XBoard := 268595330, OBoard := 120259084344, ActiveBoard := 4, XTurn := false }
          1 = some (x, o) ∧
      (won = true ↔ w ≠ 0) ∧
      (won = true →
        w = patternWinner x o winPatterns ∧
          ∃ q ∈ winPatterns, containsPattern x q ∨ containsPattern o q) ∧
      (gameWon = true ↔ gameWinner ≠ 0) ∧
      (w = 0 ∨ w = 1 ∨ w = 2) ∧
      (gameWinner = 0 ∨ gameWinner = 1 ∨ gameWinner = 2) :=
  queries_agree
    { XBoard := 268595330, OBoard := 120259084344, ActiveBoard := 4, XTurn := false } 1
    (by decide) (by decide)

/-! ## The forced sub-board -/

theorem MakeMove_keeps_forcedBoardOpen {g g' : u3t} {b p : Int} {r : Bool}
    (hb0 : 0 ≤ b) (hb : b < 9) (hp0 : 0 ≤ p) (hp : p < 9)
    (h : MakeMove g b p = some (r, g')) (hinv : forcedBoardOpen g) :
    forcedBoardOpen g' := by
  obtain ⟨f, hf, heq⟩ := MakeMove_inRange g hb0 hb hp0 hp
  rw [heq] at h
  split at h
  · simp only [Option.some.injEq, Prod.mk.injEq] at h
    rw [← h.2]
    exact hinv
  · simp only [Option.some.injEq, Prod.mk.injEq] at h
    rw [← h.2]
    cases f with
    | true => left; rfl
    | false =>
      right
      have hact : (switchTurn (markCell g (maskAt (GetGlobalPosition b p)) p) false).ActiveBoard
          = p := rfl
      rw [hact,
        IsBoardFull_congr (switchTurn_XBoard _ false) (switchTurn_OBoard _ false) p,
        IsBoardWon_congr (switchTurn_XBoard _ false) (switchTurn_OBoard _ false) p]
      have hfull := IsBoardFull_eq (markCell g (maskAt (GetGlobalPosition b p)) p) hp0 hp
      obtain ⟨x, o, -, -, -, hwon, -⟩ :=
        boardQueries_spec (markCell g (maskAt (GetGlobalPosition b p)) p) hp0 hp
      have hnot : ¬ (IsBoardFull (markCell g (maskAt (GetGlobalPosition b p)) p) p = some true ∨
          IsBoardWon (markCell g (maskAt (GetGlobalPosition b p)) p) p = some true) :=
        fun hc => absurd (hf.mpr hc) (by decide)
      refine ⟨⟨hp0, hp⟩, ?_, ?_⟩
      · rw [hfull] at hnot ⊢
        cases hv : ((List.range 9).all fun i =>
          xAt (markCell g (maskAt (GetGlobalPosition b p)) p) p i ||
            oAt (markCell g (maskAt (GetGlobalPosition b p)) p) p i) with
        | false => rfl
        | true => rw [hv] at hnot; exact absurd (Or.inl rfl) hnot
      · rw [hwon] at hnot ⊢
        cases hv : anyPattern x o winPatterns with
        | false => rfl
        | true => rw [hv] at hnot; exact absurd (Or.inr rfl) hnot

theorem runMoves_keeps_forcedBoardOpen :
    ∀ (calls : List (Int × Int)) (g g' : u3t) (n : Nat),
      callsInRange calls → forcedBoardOpen g → runMoves g calls = some (n, g') →
      forcedBoardOpen g' := by
  intro calls
  induction calls with
  | nil =>
    intro g g' n _ hinv h
    simp only [runMoves, Option.some.injEq, Prod.mk.injEq] at h
    rw [← h.2]; exact hinv
  | cons c rest ih =>
    intro g g' n hr hinv h
    obtain ⟨r, g1, k, hm, hrun, -⟩ := runMoves_cons_some h
    have hc := hr c (List.mem_cons_self _ _)
    have hrest : callsInRange rest := fun d hd => hr d (List.mem_cons_of_mem _ hd)
    exact ih g1 g' k hrest
      (MakeMove_keeps_forcedBoardOpen hc.1.1 hc.1.2 hc.2.1 hc.2.2 hm hinv) hrun

theorem open_board_has_move (g : u3t) {b : Int} (hb0 : 0 ≤ b) (hb : b < 9)
    (hact : g.ActiveBoard = -1 ∨ g.ActiveBoard = b) (hfull : IsBoardFull g b = some false) :
    ∃ (localPos : Int) (g' : u3t), (0 ≤ localPos ∧ localPos < 9) ∧
      MakeMove g b localPos = some (true, g') := by
  rw [IsBoardFull_eq g hb0 hb, Option.some.injEq, List.all_eq_false] at hfull
  obtain ⟨i, hi, hcell⟩ := hfull
  have hi9 : i < 9 := List.mem_range.mp hi
  have hp0 : (0 : Int) ≤ (i : Int) := Int.natCast_nonneg i
  have hp : (i : Int) < 9 := by exact_mod_cast hi9
  have hemp : IsEmpty g (GetGlobalPosition b (i : Int)) = some true := by
    rw [IsEmpty_cell g hb0 hb hi9]
    simpa using hcell
  obtain ⟨f, -, heq⟩ := MakeMove_inRange g hb0 hb hp0 hp
  have hn : ¬ ((g.ActiveBoard ≠ -1 ∧ g.ActiveBoard ≠ b) ∨
      IsEmpty g (GetGlobalPosition b (i : Int)) = some false) := by
    rw [hemp]
    rintro (h | h)
    · rcases hact with h1 | h1
      · exact h.1 h1
      · exact h.2 h1
    · exact absurd (Option.some.inj h) (by decide)
  rw [if_neg hn] at heq
  exact ⟨(i : Int), _, ⟨hp0, hp⟩, heq⟩

/-- C17: in every state reached from `NewGame` by `MakeMove` calls with arguments in
`[0,9)`, `ActiveBoard` is `-1` or lies in `[0,9)`; when it is a board `b`, that
board is neither won nor full and some `localPos` in `[0,9)` makes
`MakeMove(b, localPos)` return `true`; and in every such state some call with
arguments in `[0,9)` returns `true`. -/
theorem forced_board_playable (g : u3t) (h : ReachableInRange g) :
    (g.ActiveBoard = -1 ∨ (0 ≤ g.ActiveBoard ∧ g.ActiveBoard < 9)) ∧
    (g.ActiveBoard ≠ -1 →
      IsBoardWon g g.ActiveBoard = some false ∧ IsBoardFull g g.ActiveBoard = some false ∧
      ∃ (localPos : Int) (g' : u3t), (0 ≤ localPos ∧ localPos < 9) ∧
        MakeMove g g.ActiveBoard localPos = some (true, g')) ∧
    (∃ (board localPos : Int) (g' : u3t),
      (0 ≤ board ∧ board < 9) ∧ (0 ≤ localPos ∧ localPos < 9) ∧
        MakeMove g board localPos = some (true, g')) := by
  obtain ⟨calls, n, hr, hrun⟩ := h
  have hinv : forcedBoardOpen g :=
    runMoves_keeps_forcedBoardOpen calls NewGame g n hr (Or.inl rfl) hrun
  refine ⟨?_, ?_, ?_⟩
  · rcases hinv with h1 | ⟨h1, -, -⟩
    · exact Or.inl h1
    · exact Or.inr h1
  · intro hne
    rcases hinv with h1 | ⟨h1, hfull, hwon⟩
    · exact absurd h1 hne
    · exact ⟨hwon, hfull, open_board_has_move g h1.1 h1.2 (Or.inr rfl) hfull⟩
  · rcases hinv with h1 | ⟨h1, hfull, -⟩
    · have hfull8 : IsBoardFull g 8 = some false :=
        IsBoardFull_false_of_cell g (by decide) (by decide) (by decide : 4 < 9) (by decide)
      obtain ⟨lp, g', hlp, hm⟩ :=
        open_board_has_move g (by decide : (0 : Int) ≤ 8) (by decide) (Or.inl h1) hfull8
      exact ⟨8, lp, g', ⟨by decide, by decide⟩, hlp, hm⟩
    · obtain ⟨lp, g', hlp, hm⟩ :=
        open_board_has_move g h1.1 h1.2 (Or.inr rfl) hfull
      exact ⟨g.ActiveBoard, lp, g', h1, hlp, hm⟩

/-- Witness for C17: the state after the calls `MakeMove(0,4)`, `MakeMove(0,0)`
(rejected) and `MakeMove(4,0)`, in which the forced board is 0. -/
theorem forced_board_playable_witness :
    ReachableInRange
        { XBoard := 1024, OBoard := 1073741824, ActiveBoard := 0, XTurn := true } ∧
      IsBoardWon { XBoard := 1024, OBoard := 1073741824, ActiveBoard := 0, XTurn := true }
        0 = some false ∧
      IsBoardFull { XBoard := 1024, OBoard := 1073741824, ActiveBoard := 0, XTurn := true }
        0 = some false ∧
      ∃ (localPos : Int) (g' : u3t), (0 ≤ localPos ∧ localPos < 9) ∧
        MakeMove { XBoard := 1024, OBoard := 1073741824, ActiveBoard := 0, XTurn := true }
          0 localPos = some (true, g') :=
  ⟨⟨[(0, 4), (0, 0), (4, 0)], 2, by unfold callsInRange; decide, by decide⟩,
    (forced_board_playable
      { XBoard := 1024, OBoard := 1073741824, ActiveBoard := 0, XTurn := true }
      ⟨[(0, 4), (0, 0), (4, 0)], 2, by unfold callsInRange; decide, by decide⟩).2.1
      (by decide)⟩

/-! ## The winner of a sub-board along further moves -/

theorem land_lor_ne_zero_iff (x m c : Nat) :
    (x ||| m) &&& c ≠ 0 ↔ x &&& c ≠ 0 ∨ m &&& c ≠ 0 := by
  constructor
  · intro h
    obtain ⟨i, hi⟩ := Nat.ne_zero_implies_bit_true h
    rw [Nat.testBit_and, Nat.testBit_or] at hi
    simp only [Bool.and_eq_true, Bool.or_eq_true] at hi
    rcases hi.1 with hx | hm
    · left
      intro h0
      have h2 := congrArg (fun n => Nat.testBit n i) h0
      simp [Nat.testBit_and, hx, hi.2] at h2
    · right
      intro h0
      have h2 := congrArg (fun n => Nat.testBit n i) h0
      simp [Nat.testBit_and, hm, hi.2] at h2
  · rintro (h | h) h0
    · obtain ⟨i, hi⟩ := Nat.ne_zero_implies_bit_true h
      rw [Nat.testBit_and] at hi
      simp only [Bool.and_eq_true] at hi
      have h2 := congrArg (fun n => Nat.testBit n i) h0
      simp [Nat.testBit_and, Nat.testBit_or, hi.1, hi.2] at h2
    · obtain ⟨i, hi⟩ := Nat.ne_zero_implies_bit_true h
      rw [Nat.testBit_and] at hi
      simp only [Bool.and_eq_true] at hi
      have h2 := congrArg (fun n => Nat.testBit n i) h0
      simp [Nat.testBit_and, Nat.testBit_or, hi.1, hi.2] at h2

theorem maskAt_land_ne_zero {n k : Int} (hn : 0 ≤ n) (hk : 0 ≤ k)
    (h : maskAt n &&& maskAt k ≠ 0) : n = k := by
  unfold maskAt at h
  split at h
  · simp at h
  · split at h
    · simp at h
    · rw [land_two_pow_ne_zero_iff, Nat.testBit_two_pow] at h
      simp only [decide_eq_true_eq] at h
      omega

theorem containsPattern_mono {s t : Nat} (h : ∀ j, s.testBit j = true → t.testBit j = true)
    {q : Nat} (hq : containsPattern s q) : containsPattern t q := by
  unfold containsPattern at hq ⊢
  apply Nat.eq_of_testBit_eq
  intro j
  rw [Nat.testBit_and]
  cases hqj : q.testBit j with
  | false => simp
  | true =>
    have h2 := congrArg (fun n => Nat.testBit n j) hq
    simp only [Nat.testBit_and, hqj, Bool.and_true] at h2
    rw [h j h2]
    rfl

theorem patternWinner_ne_zero_mono {x o x' o' : Nat} (l : List Nat)
    (hx : ∀ q, containsPattern x q → containsPattern x' q)
    (ho : ∀ q, containsPattern o q → containsPattern o' q)
    (h : patternWinner x o l ≠ 0) : patternWinner x' o' l ≠ 0 := by
  intro h0
  apply h
  rw [patternWinner_eq_zero_iff] at h0 ⊢
  intro q hq
  exact ⟨fun hc => (h0 q hq).1 (hx q hc), fun hc => (h0 q hq).2 (ho q hc)⟩

theorem patternWinner_one_mono {x o x' : Nat} (l : List Nat)
    (hx : ∀ q, containsPattern x q → containsPattern x' q)
    (h : patternWinner x o l = 1) : patternWinner x' o l = 1 := by
  induction l with
  | nil => simp [patternWinner] at h
  | cons q rest ih =>
    unfold patternWinner at h ⊢
    by_cases hxq : x &&& q = q
    · have hx' : x' &&& q = q := hx q hxq
      simp [hx']
    · by_cases hoq : o &&& q = q
      · simp [hxq, hoq] at h
      · simp only [hxq, hoq, beq_iff_eq, if_false] at h
        by_cases hx' : x' &&& q = q
        · simp [hx']
        · simp only [hx', hoq, beq_iff_eq, if_false]
          exact ih h

theorem patternWinner_two_mono {x o o' : Nat} (l : List Nat)
    (ho : ∀ q, containsPattern o q → containsPattern o' q)
    (h : patternWinner x o l = 2) : patternWinner x o' l = 2 := by
  induction l with
  | nil => simp [patternWinner] at h
  | cons q rest ih =>
    unfold patternWinner at h ⊢
    by_cases hxq : x &&& q = q
    · simp [hxq] at h
    · by_cases hoq : o &&& q = q
      · have ho' : o' &&& q = q := ho q hoq
        simp [hxq, ho']
      · simp only [hxq, hoq, beq_iff_eq, if_false] at h
        by_cases ho' : o' &&& q = q
        · simp [hxq, ho']
        · simp only [hxq, ho', beq_iff_eq, if_false]
          exact ih h

theorem bne_lor_land (x m c : Nat) :
    ((x ||| m) &&& c != 0) = ((x &&& c != 0) || (m &&& c != 0)) := by
  rw [Bool.eq_iff_iff]
  simp only [bne_iff_ne, Bool.or_eq_true]
  exact land_lor_ne_zero_iff x m c

theorem MakeMove_true_masks {g g' : u3t} {board localPos : Int}
    (h : MakeMove g board localPos = some (true, g')) :
    ∃ mask, shl1 (GetGlobalPosition board localPos) = some mask ∧
      g.XBoard &&& mask = 0 ∧ g.OBoard &&& mask = 0 ∧
      g'.XBoard = (if g.XTurn = true then g.XBoard ||| mask else g.XBoard) ∧
      g'.OBoard = (if g.XTurn = true then g.OBoard else g.OBoard ||| mask) := by
  rcases MakeMove_some h with ⟨hr, -, -⟩ | ⟨-, -, mask, f, hsh, hemp, -, hg⟩
  · exact absurd hr (by decide)
  · simp only [IsEmpty, hsh, Option.bind_eq_bind, Option.some_bind, pure,
      Option.some.injEq, Bool.and_eq_true, beq_iff_eq] at hemp
    refine ⟨mask, hsh, hemp.1, hemp.2, ?_, ?_⟩
    · rw [hg, switchTurn_XBoard]
      cases ht : g.XTurn <;> simp [markCell, ht]
    · rw [hg, switchTurn_OBoard]
      cases ht : g.XTurn <;> simp [markCell, ht]

theorem cells_after_move {g g' : u3t} {board p b : Int}
    (hB0 : 0 ≤ board) (hB : board < 9) (hp0 : 0 ≤ p) (hp : p < 9)
    (hb0 : 0 ≤ b) (hb : b < 9) (hm : MakeMove g board p = some (true, g')) :
    ∃ hit : Nat → Bool,
      (∀ j, xAt g' b j = (xAt g b j || (g.XTurn && hit j))) ∧
      (∀ j, oAt g' b j = (oAt g b j || (!g.XTurn && hit j))) ∧
      (∀ j, j < 9 → hit j = true → xAt g b j = false ∧ oAt g b j = false) ∧
      (board ≠ b → ∀ j, j < 9 → hit j = false) := by
  obtain ⟨mask, hsh, hX0, hO0, hX', hO'⟩ := MakeMove_true_masks hm
  have hn := (GetGlobalPosition_bounds hB0 hB hp0 hp).1
  rw [shl1_of_nonneg hn, Option.some.injEq] at hsh
  subst hsh
  have hkey : ∀ j : Nat, j < 9 →
      maskAt (GetGlobalPosition board p) &&& maskAt (GetGlobalPosition b (j : Int)) ≠ 0 →
      GetGlobalPosition board p = GetGlobalPosition b (j : Int) :=
    fun j hj h => maskAt_land_ne_zero hn (GetGlobalPosition_nonneg_nat hb0 hb hj) h
  refine ⟨fun j => (maskAt (GetGlobalPosition board p) &&&
      maskAt (GetGlobalPosition b (j : Int))) != 0, ?_, ?_, ?_, ?_⟩
  · intro j
    unfold xAt
    rw [hX']
    cases ht : g.XTurn
    · simp
    · simp only [if_true, Bool.true_and]
      exact bne_lor_land _ _ _
  · intro j
    unfold oAt
    rw [hO']
    cases ht : g.XTurn
    · simp only [Bool.false_eq_true, if_false, Bool.not_false, Bool.true_and]
      exact bne_lor_land _ _ _
    · simp
  · intro j hj hhit
    rw [bne_iff_ne] at hhit
    have heq := hkey j hj hhit
    unfold xAt oAt
    rw [← heq, hX0, hO0]
    exact ⟨rfl, rfl⟩
  · intro hne j hj
    by_contra hhit
    have hhit' : (maskAt (GetGlobalPosition board p) &&&
        maskAt (GetGlobalPosition b (j : Int)) != 0) = true := by
      simpa using hhit
    rw [bne_iff_ne] at hhit'
    have heq := hkey j hj hhit'
    have h1 := hovered_GetGlobalPosition hB0 hB hp0 hp
    have h2 := hovered_GetGlobalPosition hb0 hb (Int.natCast_nonneg j)
      (by exact_mod_cast hj : (j : Int) < 9)
    rw [heq, h2] at h1
    simp only [Prod.mk.injEq] at h1
    exact hne h1.1.symm

/-- C16 (the claim as stated fails): the eleven successful calls below lead from
`NewGame` to a state in which X holds the middle row of sub-board 1 and O its local
cells 0 and 1, so `GetBoardWinner(1)` is `1`; the next call `MakeMove(1, 2)`, by O,
succeeds and completes the top row of O, and `GetBoardWinner(1)` is `2` afterwards. -/
theorem GetBoardWinner_changes :
    runMoves NewGame
        [(1, 3), (3, 1), (1, 4), (4, 1), (1, 5), (5, 1), (2, 1), (1, 0), (0, 1), (1, 1),
          (6, 1)] =
      some (11,
        { XBoard := 36028797018992770, OBoard := 19595788312, ActiveBoard := -1,
          XTurn := false }) ∧
    GetBoardWinner
        { XBoard := 36028797018992770, OBoard := 19595788312, ActiveBoard := -1,
          XTurn := false } 1 = some 1 ∧
    MakeMove
        { XBoard := 36028797018992770, OBoard := 19595788312, ActiveBoard := -1,
          XTurn := false } 1 2 =
      some (true,
        { XBoard := 36028797018992770, OBoard := 19595788344, ActiveBoard := 2,
          XTurn := true }) ∧
    GetBoardWinner
        { XBoard := 36028797018992770, OBoard := 19595788344, ActiveBoard := 2,
          XTurn := true } 1 = some 2 := by
  decide

/-- C16 (amended): a decided sub-board stays decided. For every state, every board `b`
in `[0,9)` with `GetBoardWinner(b) = w != 0` and every successful `MakeMove` with
arguments in `[0,9)`, `GetBoardWinner(b)` is still non-zero afterwards; it is still
`w` when the move was made in another sub-board, and when it was made by the player
`w` (X to move and `w = 1`, or O to move and `w = 2`). -/
theorem GetBoardWinner_stays_decided (g g' : u3t) (board p b w : Int)
    (hB0 : 0 ≤ board) (hB : board < 9) (hp0 : 0 ≤ p) (hp : p < 9)
    (hb0 : 0 ≤ b) (hb : b < 9)
    (hw : GetBoardWinner g b = some w) (hw0 : w ≠ 0)
    (hm : MakeMove g board p = some (true, g')) :
    ∃ w', GetBoardWinner g' b = some w' ∧ w' ≠ 0 ∧
      (board ≠ b → w' = w) ∧
      (g.XTurn = true → w = 1 → w' = 1) ∧
      (g.XTurn = false → w = 2 → w' = 2) := by
  obtain ⟨hit, hxA, hoA, hhit, hne⟩ := cells_after_move hB0 hB hp0 hp hb0 hb hm
  obtain ⟨x, o, -, hx, ho, -, hgw⟩ := boardQueries_spec g hb0 hb
  obtain ⟨x', o', -, hx', ho', -, hgw'⟩ := boardQueries_spec g' hb0 hb
  rw [hgw, Option.some.injEq] at hw
  subst hw
  have hxsub : ∀ j, x.testBit j = true → x'.testBit j = true := by
    intro j
    rw [hx j, hx' j, hxA j]
    cases decide (j < 9) <;> cases xAt g b j <;> simp
  have hosub : ∀ j, o.testBit j = true → o'.testBit j = true := by
    intro j
    rw [ho j, ho' j, hxA j, hoA j]
    by_cases hj : j < 9
    · have hh := hhit j hj
      cases hhj : hit j
      · simp
      · have h2 := hh hhj
        simp [h2.1, h2.2]
    · simp [hj]
  have hx_eq : (∀ j, j < 9 → (g.XTurn && hit j) = false) → x' = x := by
    intro hall
    apply Nat.eq_of_testBit_eq
    intro j
    rw [hx j, hx' j, hxA j]
    by_cases hj : j < 9
    · rw [hall j hj]; simp
    · simp [hj]
  have ho_eq : (∀ j, j < 9 → (!g.XTurn && hit j) = false) → o' = o := by
    intro hall
    apply Nat.eq_of_testBit_eq
    intro j
    rw [ho j, ho' j, hxA j, hoA j]
    by_cases hj : j < 9
    · rw [hall j hj]
      have hh := hhit j hj
      cases hhj : hit j
      · simp
      · have h2 := hh hhj
        simp [h2.1, h2.2]
    · simp [hj]
  refine ⟨patternWinner x' o' winPatterns, hgw', ?_, ?_, ?_, ?_⟩
  · exact patternWinner_ne_zero_mono winPatterns
      (fun q hq => containsPattern_mono hxsub hq)
      (fun q hq => containsPattern_mono hosub hq) hw0
  · intro hneq
    have h1 : x' = x := hx_eq (fun j hj => by rw [hne hneq j hj]; simp)
    have h2 : o' = o := ho_eq (fun j hj => by rw [hne hneq j hj]; simp)
    rw [h1, h2]
  · intro ht h1
    have h2 : o' = o := ho_eq (fun j _ => by rw [ht]; rfl)
    rw [h2]
    exact patternWinner_one_mono winPatterns
      (fun q hq => containsPattern_mono hxsub hq) h1
  · intro ht h1
    have h2 : x' = x := hx_eq (fun j _ => by rw [ht]; rfl)
    rw [h2]
    exact patternWinner_two_mono winPatterns
      (fun q hq => containsPattern_mono hosub hq) h1

/-- Witness for C16 (amended): the state after five successful calls in which X has won
sub-board 0 with its top row, and the further move `MakeMove(0, 3)` by O. -/
theorem GetBoardWinner_stays_decided_witness :
    GetBoardWinner { XBoard := 7, OBoard := 72, ActiveBoard := -1, XTurn := false } 0 =
      some 1 ∧
    MakeMove { XBoard := 7, OBoard := 72, ActiveBoard := -1, XTurn := false } 0 3 =
      some (true, { XBoard := 7, OBoard := 584, ActiveBoard := 3, XTurn := true }) ∧
    ∃ w', GetBoardWinner { XBoard := 7, OBoard := 584, ActiveBoard := 3, XTurn := true } 0 =
        some w' ∧ w' ≠ 0 ∧
      ((0 : Int) ≠ 0 → w' = 1) ∧
      (false = true → (1 : Int) = 1 → w' = 1) ∧
      (false = false → (1 : Int) = 2 → w' = 2) :=
  ⟨by decide, by decide,
    GetBoardWinner_stays_decided
      { XBoard := 7, OBoard := 72, ActiveBoard := -1, XTurn := false }
      { XBoard := 7, OBoard := 584, ActiveBoard := 3, XTurn := true } 0 3 0 1
      (by decide) (by decide) (by decide) (by decide) (by decide) (by decide)
      (by decide) (by decide) (by decide)⟩

/-! ## Symmetries of the square -/

theorem transform_foldl_testBit (sym : List Nat) (s : Nat) :
    ∀ (l : List Nat) (acc j : Nat),
      (l.foldl (fun acc i => if s.testBit i then acc ||| 2 ^ sym.getD i 0 else acc)
        acc).testBit j =
        (acc.testBit j || l.any fun i => s.testBit i && decide (sym.getD i 0 = j)) := by
  intro l
  induction l with
  | nil => intro acc j; simp
  | cons i rest ih =>
    intro acc j
    rw [List.foldl_cons, ih, List.any_cons]
    cases hs : s.testBit i
    · simp
    · simp [Nat.testBit_or, Nat.testBit_two_pow, Bool.or_assoc]

theorem transformPattern_testBit (sym : List Nat) (s j : Nat) :
    (transformPattern sym s).testBit j =
      (List.range 9).any fun i => s.testBit i && decide (sym.getD i 0 = j) := by
  unfold transformPattern
  rw [transform_foldl_testBit]
  simp

theorem containsPattern_iff_bits (s pattern : Nat) (hpat : pattern < 2 ^ 9) :
    containsPattern s pattern ↔ ∀ i ∈ bitsOf pattern, s.testBit i = true := by
  unfold containsPattern
  constructor
  · intro h i hi
    obtain ⟨-, hbit⟩ := mem_bitsOf.mp hi
    have h2 := congrArg (fun n => Nat.testBit n i) h
    simp only [Nat.testBit_and, hbit, Bool.and_true] at h2
    exact h2
  · intro h
    apply Nat.eq_of_testBit_eq
    intro i
    rw [Nat.testBit_and]
    cases hbit : pattern.testBit i with
    | false => simp
    | true =>
      have hi9 : i < 9 := by
        by_contra hge
        have hlt : pattern < 2 ^ i :=
          lt_of_lt_of_le hpat (Nat.pow_le_pow_right (by decide) (not_lt.mp hge))
        rw [Nat.testBit_lt_two_pow hlt] at hbit
        exact Bool.false_ne_true hbit
      rw [h i (mem_bitsOf.mpr ⟨hi9, hbit⟩)]
      rfl

theorem hasLine_iff_lines (s : Nat) :
    hasLine s ↔ ∃ line ∈ ticTacToeLines, ∀ i ∈ line, s.testBit i = true := by
  rw [← exists_line_iff (fun line => ∀ i ∈ line, s.testBit i = true)]
  unfold hasLine
  constructor
  · rintro ⟨q, hq, hc⟩
    exact ⟨q, hq, (containsPattern_iff_bits s q (winPatterns_small q hq)).mp hc⟩
  · rintro ⟨q, hq, hc⟩
    exact ⟨q, hq, (containsPattern_iff_bits s q (winPatterns_small q hq)).mpr hc⟩

theorem symmetries_injective :
    ∀ sym ∈ squareSymmetries, ∀ i < 9, ∀ k < 9,
      sym.getD i 0 = sym.getD k 0 → i = k := by
  decide

theorem lines_preimage :
    ∀ sym ∈ squareSymmetries, ∀ line ∈ ticTacToeLines,
      ∃ line' ∈ ticTacToeLines, ∀ i ∈ line', sym.getD i 0 ∈ line := by
  decide

theorem lines_image :
    ∀ sym ∈ squareSymmetries, ∀ line' ∈ ticTacToeLines,
      ∃ line ∈ ticTacToeLines, ∀ j ∈ line, ∃ i ∈ line', sym.getD i 0 = j := by
  decide

theorem hasLine_transformPattern (sym : List Nat) (hsym : sym ∈ squareSymmetries)
    (s : Nat) : hasLine (transformPattern sym s) ↔ hasLine s := by
  rw [hasLine_iff_lines, hasLine_iff_lines]
  constructor
  · rintro ⟨line, hl, hall⟩
    obtain ⟨line', hl', hpre⟩ := lines_preimage sym hsym line hl
    refine ⟨line', hl', fun i hi => ?_⟩
    have hi9 := ticTacToeLines_lt line' hl' i hi
    have hbit := hall (sym.getD i 0) (hpre i hi)
    rw [transformPattern_testBit, List.any_eq_true] at hbit
    obtain ⟨k, hk, hkk⟩ := hbit
    simp only [Bool.and_eq_true, decide_eq_true_eq] at hkk
    have hki := symmetries_injective sym hsym k (List.mem_range.mp hk) i hi9 hkk.2
    rw [← hki]
    exact hkk.1
  · rintro ⟨line', hl', hall⟩
    obtain ⟨line, hl, himg⟩ := lines_image sym hsym line' hl'
    refine ⟨line, hl, fun j hj => ?_⟩
    obtain ⟨i, hi, hij⟩ := himg j hj
    rw [transformPattern_testBit, List.any_eq_true]
    refine ⟨i, List.mem_range.mpr (ticTacToeLines_lt line' hl' i hi), ?_⟩
    rw [hall i hi, hij]
    simp

/-- C12: for each of the eight symmetries of the square (the identity, three
rotations and four reflections, generated by the quarter turn and one reflection)
and every occupancy pattern `s`, the transformed pattern contains one of the eight
`winPatterns` iff `s` does; each symmetry maps every one of the `winPatterns` to one
of the `winPatterns`; and the verdict of the pattern loop of `IsBoardWon` is the same
on the transformed patterns of X and O as on the patterns themselves. -/
theorem win_lines_symmetric (sym : List Nat) (hsym : sym ∈ squareSymmetries) (s : Nat) :
    (hasLine (transformPattern sym s) ↔ hasLine s) ∧
    (∀ q ∈ winPatterns, transformPattern sym q ∈ winPatterns) ∧
    (∀ x o : Nat,
      anyPattern (transformPattern sym x) (transformPattern sym o) winPatterns =
        anyPattern x o winPatterns) ∧
    squareSymmetries =
      [(List.range 9).map id,
       (List.range 9).map rotate90,
       (List.range 9).map (fun i => rotate90 (rotate90 i)),
       (List.range 9).map (fun i => rotate90 (rotate90 (rotate90 i))),
       (List.range 9).map mirror,
       (List.range 9).map (fun i => rotate90 (rotate90 (mirror i))),
       (List.range 9).map (fun i => mirror (rotate90 i)),
       (List.range 9).map (fun i => rotate90 (mirror i))] := by
  refine ⟨hasLine_transformPattern sym hsym s, ?_, ?_, by decide⟩
  · have hclosed : ∀ sym ∈ squareSymmetries, ∀ q ∈ winPatterns,
        transformPattern sym q ∈ winPatterns := by decide
    exact hclosed sym hsym
  · intro x o
    rw [Bool.eq_iff_iff, anyPattern_iff_hasLine, anyPattern_iff_hasLine,
      hasLine_transformPattern sym hsym x, hasLine_transformPattern sym hsym o]

/-- Witness for C12: the quarter turn applied to the pattern `0x7` (the top row), which
it maps to `0x124` (the right column). -/
theorem win_lines_symmetric_witness :
    transformPattern [2, 5, 8, 1, 4, 7, 0, 3, 6] 0x7 = 0x124 ∧
    (hasLine (transformPattern [2, 5, 8, 1, 4, 7, 0, 3, 6] 0x7) ↔ hasLine 0x7) :=
  ⟨by decide, (win_lines_symmetric [2, 5, 8, 1, 4, 7, 0, 3, 6] (by decide) 0x7).1⟩

end U3T
